import Mathlib

/-!
# Verification of the ART `VerifierDeps` subsystem (LineageOS-Revived/android_art)

Shallow embedding of `runtime/verifier/verifier_deps.h` and of the behaviour
documented for its methods.  Only the header is available in the repository
snapshot, so data-model definitions (record tuples, the `kUnresolvedMarker`
sentinel, the `DexFileDeps` fields, `IsResolved`) follow the header, while
method bodies (`Encode`, `ParseStoredData`, `MergeWith`, the `Add*` recorder
helpers, `GetIdFromString`/`GetStringFromId`, `ValidateDependencies`) are
modelled from the specification's description of those components.

Machine integers are modelled as `Nat` with explicit `% 2 ^ 16` where the code
truncates to 16 bits; byte buffers are `List Nat`; fallible decoding returns
`Option`.
-/

namespace VerifierDepsModel

/-- Descriptor strings are byte sequences (`std::string` is a byte sequence). -/
abbrev Str := List Nat

/-! ## Generic list helpers -/

/-- Index of the first occurrence of `s` in a list, if present. -/
def lookupIdx {α : Type} [DecidableEq α] (s : α) : List α → Option Nat
  | [] => none
  | t :: l => if t = s then some 0 else (lookupIdx s l).map (· + 1)

theorem lookupIdx_eq_none_iff {α : Type} [DecidableEq α] (s : α) (l : List α) :
    lookupIdx s l = none ↔ s ∉ l := by
  induction l with
  | nil => simp [lookupIdx]
  | cons t l ih =>
    simp only [lookupIdx, List.mem_cons]
    by_cases h : t = s
    · simp [h]
    · simp only [if_neg h, Option.map_eq_none', ih]
      constructor
      · intro hs hc
        rcases hc with hc | hc
        · exact h hc.symm
        · exact hs hc
      · intro hc hm
        exact hc (Or.inr hm)

theorem lookupIdx_lt_length {α : Type} [DecidableEq α] {s : α} {l : List α} {i : Nat}
    (h : lookupIdx s l = some i) : i < l.length := by
  induction l generalizing i with
  | nil => cases h
  | cons t l ih =>
    simp only [List.length_cons]
    by_cases he : t = s
    · simp only [lookupIdx, if_pos he, Option.some.injEq] at h
      omega
    · simp only [lookupIdx, if_neg he, Option.map_eq_some'] at h
      obtain ⟨j, hj, hij⟩ := h
      have := ih hj
      omega

theorem lookupIdx_getD {α : Type} [DecidableEq α] {s : α} {l : List α} {i : Nat}
    (h : lookupIdx s l = some i) (d : α) : l.getD i d = s := by
  induction l generalizing i with
  | nil => cases h
  | cons t l ih =>
    by_cases he : t = s
    · simp only [lookupIdx, if_pos he, Option.some.injEq] at h
      subst h
      simpa using he
    · simp only [lookupIdx, if_neg he, Option.map_eq_some'] at h
      obtain ⟨j, hj, hij⟩ := h
      subst hij
      simpa using ih hj

/-- Replace list element at index `n` by `f` of it; no-op when out of range. -/
def modifyAt {α : Type} (n : Nat) (f : α → α) : List α → List α
  | [] => []
  | a :: l =>
    match n with
    | 0 => f a :: l
    | n + 1 => a :: modifyAt n f l

theorem modifyAt_nil {α : Type} (n : Nat) (f : α → α) : modifyAt n f ([] : List α) = [] := by
  cases n <;> rfl

theorem modifyAt_cons_zero {α : Type} (f : α → α) (a : α) (l : List α) :
    modifyAt 0 f (a :: l) = f a :: l := rfl

theorem modifyAt_cons_succ {α : Type} (n : Nat) (f : α → α) (a : α) (l : List α) :
    modifyAt (n + 1) f (a :: l) = a :: modifyAt n f l := rfl

theorem length_modifyAt {α : Type} (n : Nat) (f : α → α) (l : List α) :
    (modifyAt n f l).length = l.length := by
  induction l generalizing n with
  | nil => rw [modifyAt_nil]
  | cons a l ih =>
    cases n with
    | zero => rfl
    | succ n => simp [modifyAt_cons_succ, ih]

theorem getD_modifyAt_self {α : Type} (n : Nat) (f : α → α) (l : List α) (d : α)
    (h : n < l.length) : (modifyAt n f l).getD n d = f (l.getD n d) := by
  induction l generalizing n with
  | nil => simp at h
  | cons a l ih =>
    cases n with
    | zero => rfl
    | succ n =>
      rw [modifyAt_cons_succ]
      simp only [List.getD_cons_succ]
      exact ih n (by simpa using h)

theorem getD_modifyAt_ne {α : Type} (n m : Nat) (f : α → α) (l : List α) (d : α)
    (h : n ≠ m) : (modifyAt n f l).getD m d = l.getD m d := by
  induction l generalizing n m with
  | nil => rw [modifyAt_nil]
  | cons a l ih =>
    cases n with
    | zero =>
      cases m with
      | zero => exact absurd rfl h
      | succ m => rfl
    | succ n =>
      cases m with
      | zero => rfl
      | succ m =>
        rw [modifyAt_cons_succ]
        simp only [List.getD_cons_succ]
        exact ih n m (by omega)

/-! ## Ordered insertion (model of `std::set::insert`) -/

/-- Insert into a sorted duplicate-free list, keeping it sorted and
duplicate-free (model of `std::set` insertion with strict order `lt`). -/
def insertOrdered {α : Type} [DecidableEq α] (lt : α → α → Bool) (a : α) :
    List α → List α
  | [] => [a]
  | b :: l =>
    if a = b then b :: l
    else if lt a b then a :: b :: l
    else b :: insertOrdered lt a l

theorem mem_insertOrdered {α : Type} [DecidableEq α] (lt : α → α → Bool) (a x : α)
    (l : List α) : x ∈ insertOrdered lt a l ↔ x = a ∨ x ∈ l := by
  induction l with
  | nil => simp [insertOrdered]
  | cons b l ih =>
    simp only [insertOrdered]
    split_ifs with he hlt
    · subst he
      simp only [List.mem_cons]
      tauto
    · simp only [List.mem_cons]
    · simp only [List.mem_cons, ih]
      tauto

theorem mem_insertOrdered_self {α : Type} [DecidableEq α] (lt : α → α → Bool)
    (a : α) (l : List α) : a ∈ insertOrdered lt a l :=
  (mem_insertOrdered lt a a l).mpr (Or.inl rfl)

theorem mem_insertOrdered_of_mem {α : Type} [DecidableEq α] (lt : α → α → Bool)
    (a x : α) (l : List α) (h : x ∈ l) : x ∈ insertOrdered lt a l :=
  (mem_insertOrdered lt a x l).mpr (Or.inr h)

/-! ## Byte-level codec primitives

Modelled from the spec: the exact wire layout is left open by the spec
("an implementer must choose a self-describing layout satisfying the
round-trip and determinism properties"); we use a little-endian base-128
varint for every integer, count-prefixed sequences, and packed bit arrays
(8 bits per byte) for the bit-vector fields. -/

/-- Little-endian base-128 varint encoding, with structural fuel (the fuel
is only a termination device: any fuel at least the value works). -/
def encodeNatGo : Nat → Nat → List Nat
  | 0, n => [n]
  | fuel + 1, n => if n < 128 then [n] else (n % 128 + 128) :: encodeNatGo fuel (n / 128)

/-- Little-endian base-128 varint encoding of a natural number. -/
def encodeNat (n : Nat) : List Nat := encodeNatGo n n

theorem encodeNatGo_irrel : ∀ (f1 : Nat), ∀ (n f2 : Nat), n ≤ f1 → n ≤ f2 →
    encodeNatGo f1 n = encodeNatGo f2 n := by
  intro f1
  induction f1 with
  | zero =>
    intro n f2 h1 _
    have hn : n = 0 := by omega
    subst hn
    cases f2 with
    | zero => rfl
    | succ f2 => simp [encodeNatGo]
  | succ f1 ih =>
    intro n f2 h1 h2
    by_cases hn : n < 128
    · cases f2 with
      | zero =>
        have : n = 0 := by omega
        subst this
        simp [encodeNatGo]
      | succ f2 => simp [encodeNatGo, hn]
    · cases f2 with
      | zero => omega
      | succ f2 =>
        simp only [encodeNatGo, if_neg hn]
        have hdiv : n / 128 < n := Nat.div_lt_self (by omega) (by omega)
        rw [ih (n / 128) f2 (by omega) (by omega)]

theorem encodeNat_eq (n : Nat) :
    encodeNat n = if n < 128 then [n] else (n % 128 + 128) :: encodeNat (n / 128) := by
  unfold encodeNat
  by_cases hn : n < 128
  · rw [if_pos hn]
    cases n with
    | zero => rfl
    | succ m => simp [encodeNatGo, hn]
  · rw [if_neg hn]
    cases n with
    | zero => omega
    | succ m =>
      simp only [encodeNatGo, if_neg hn]
      have hdiv : (m + 1) / 128 < m + 1 := Nat.div_lt_self (by omega) (by omega)
      rw [encodeNatGo_irrel m ((m + 1) / 128) ((m + 1) / 128) (by omega) (by omega)]

/-- Varint decoder; returns the value and the unconsumed bytes. -/
def readNat : List Nat → Option (Nat × List Nat)
  | [] => none
  | b :: rest =>
    if b < 128 then some (b, rest)
    else
      match readNat rest with
      | none => none
      | some (n, rest') => some (b - 128 + 128 * n, rest')

theorem readNat_encodeNat (n : Nat) (rest : List Nat) :
    readNat (encodeNat n ++ rest) = some (n, rest) := by
  induction n using Nat.strong_induction_on with
  | _ n ih =>
    by_cases h : n < 128
    · rw [encodeNat_eq, if_pos h]
      simp [readNat, h]
    · rw [encodeNat_eq, if_neg h]
      have hlt : n / 128 < n := Nat.div_lt_self (by omega) (by omega)
      have hr := ih (n / 128) hlt
      rw [List.cons_append]
      simp only [readNat, if_neg (by omega : ¬n % 128 + 128 < 128), List.append_eq, hr]
      have heq : n % 128 + 128 - 128 + 128 * (n / 128) = n := by
        have := Nat.mod_add_div n 128
        omega
      rw [heq]

/-- Read exactly `n` raw bytes. -/
def readBytes : Nat → List Nat → Option (List Nat × List Nat)
  | 0, l => some ([], l)
  | _ + 1, [] => none
  | n + 1, b :: l =>
    match readBytes n l with
    | none => none
    | some (bs, r) => some (b :: bs, r)

theorem readBytes_append (bs rest : List Nat) :
    readBytes bs.length (bs ++ rest) = some (bs, rest) := by
  induction bs with
  | nil => rfl
  | cons b bs ih => simp [readBytes, ih]

/-! ### Sequencing of parsers -/

/-- Sequential composition of parsers over a byte list. -/
def pseq {α β : Type} (p : List Nat → Option (α × List Nat))
    (q : α → List Nat → Option (β × List Nat)) :
    List Nat → Option (β × List Nat) := fun input =>
  match p input with
  | none => none
  | some (a, r) => q a r

/-- Parser returning a fixed value and consuming nothing. -/
def pret {α : Type} (a : α) : List Nat → Option (α × List Nat) := fun input =>
  some (a, input)

/-- Parser that succeeds (consuming nothing) exactly when `b` is true. -/
def pguard (b : Bool) : List Nat → Option (Unit × List Nat) := fun input =>
  if b then some ((), input) else none

/-- A parser consumes a definite prefix of its input and does not look at
the remaining suffix. -/
def ParserOk {α : Type} (p : List Nat → Option (α × List Nat)) : Prop :=
  ∀ input x r, p input = some (x, r) →
    ∃ c, input = c ++ r ∧ ∀ r', p (c ++ r') = some (x, r')

theorem parserOk_readNat : ParserOk readNat := by
  intro input
  induction input with
  | nil => intro x r h; cases h
  | cons b rest ih =>
    intro x r h
    by_cases hb : b < 128
    · simp only [readNat, if_pos hb, Option.some.injEq, Prod.mk.injEq] at h
      obtain ⟨h1, h2⟩ := h
      subst h1
      subst h2
      exact ⟨[b], rfl, fun r' => by simp [readNat, hb]⟩
    · simp only [readNat, if_neg hb] at h
      cases hr : readNat rest with
      | none => rw [hr] at h; cases h
      | some v =>
        rw [hr] at h
        obtain ⟨n, rest'⟩ := v
        simp only [Option.some.injEq, Prod.mk.injEq] at h
        obtain ⟨c, hc, hinv⟩ := ih n rest' hr
        refine ⟨b :: c, by simp [hc, h.2], fun r' => ?_⟩
        simp [readNat, hb, hinv r', h.1]

theorem parserOk_readBytes (n : Nat) : ParserOk (readBytes n) := by
  induction n with
  | zero =>
    intro input x r h
    simp only [readBytes, Option.some.injEq, Prod.mk.injEq] at h
    exact ⟨[], by simp [h.2], fun r' => by simp [readBytes, h.1]⟩
  | succ n ih =>
    intro input x r h
    cases input with
    | nil => cases h
    | cons b l =>
      simp only [readBytes] at h
      cases hr : readBytes n l with
      | none => rw [hr] at h; cases h
      | some v =>
        rw [hr] at h
        obtain ⟨bs, r'⟩ := v
        simp only [Option.some.injEq, Prod.mk.injEq] at h
        obtain ⟨c, hc, hinv⟩ := ih l bs r' hr
        refine ⟨b :: c, by simp [hc, h.2], fun r'' => ?_⟩
        simp [readBytes, hinv r'', h.1]

theorem parserOk_pseq {α β : Type} {p : List Nat → Option (α × List Nat)}
    {q : α → List Nat → Option (β × List Nat)} (hp : ParserOk p)
    (hq : ∀ a, ParserOk (q a)) : ParserOk (pseq p q) := by
  intro input x r h
  simp only [pseq] at h
  cases hpi : p input with
  | none => rw [hpi] at h; cases h
  | some v =>
    rw [hpi] at h
    obtain ⟨a, r1⟩ := v
    obtain ⟨c1, hc1, hinv1⟩ := hp input a r1 hpi
    obtain ⟨c2, hc2, hinv2⟩ := hq a r1 x r h
    refine ⟨c1 ++ c2, by simp [hc1, hc2], fun r' => ?_⟩
    simp only [pseq, List.append_assoc, hinv1 (c2 ++ r'), hinv2 r']

theorem parserOk_pret {α : Type} (a : α) : ParserOk (pret a) := by
  intro input x r h
  simp only [pret, Option.some.injEq, Prod.mk.injEq] at h
  exact ⟨[], by simp [h.2], fun r' => by simp [pret, h.1]⟩

theorem parserOk_pguard (b : Bool) : ParserOk (pguard b) := by
  intro input x r h
  cases b with
  | false => cases h
  | true =>
    simp only [pguard, if_true] at h
    simp only [Option.some.injEq, Prod.mk.injEq] at h
    obtain ⟨h1, h2⟩ := h
    subst h2
    exact ⟨[], rfl, fun r' => by simp [pguard]⟩

/-! ### Count-prefixed sequences -/

/-- Concatenation of the encodings of the elements of a list. -/
def encodeSeq {α : Type} (enc : α → List Nat) : List α → List Nat
  | [] => []
  | a :: l => enc a ++ encodeSeq enc l

/-- Count-prefixed encoding of a sequence. -/
def encodeList {α : Type} (enc : α → List Nat) (l : List α) : List Nat :=
  encodeNat l.length ++ encodeSeq enc l

/-- Read exactly `n` items with the item parser `p`. -/
def readN {α : Type} (p : List Nat → Option (α × List Nat)) :
    Nat → List Nat → Option (List α × List Nat)
  | 0, input => some ([], input)
  | n + 1, input =>
    match p input with
    | none => none
    | some (a, r) =>
      match readN p n r with
      | none => none
      | some (as, r') => some (a :: as, r')

/-- Read a count-prefixed sequence. -/
def readList {α : Type} (p : List Nat → Option (α × List Nat)) :
    List Nat → Option (List α × List Nat) :=
  pseq readNat fun n => readN p n

theorem readN_encodeSeq {α : Type} {p : List Nat → Option (α × List Nat)}
    {enc : α → List Nat} (hp : ∀ a rest, p (enc a ++ rest) = some (a, rest))
    (l : List α) (rest : List Nat) :
    readN p l.length (encodeSeq enc l ++ rest) = some (l, rest) := by
  induction l with
  | nil => rfl
  | cons a l ih =>
    simp only [List.length_cons, encodeSeq, List.append_assoc, readN, hp, ih]

theorem readList_encodeList {α : Type} {p : List Nat → Option (α × List Nat)}
    {enc : α → List Nat} (hp : ∀ a rest, p (enc a ++ rest) = some (a, rest))
    (l : List α) (rest : List Nat) :
    readList p (encodeList enc l ++ rest) = some (l, rest) := by
  simp only [readList, encodeList, pseq, List.append_assoc, readNat_encodeNat,
    readN_encodeSeq hp]

theorem parserOk_readN {α : Type} {p : List Nat → Option (α × List Nat)}
    (hp : ParserOk p) (n : Nat) : ParserOk (readN p n) := by
  induction n with
  | zero =>
    intro input x r h
    simp only [readN, Option.some.injEq, Prod.mk.injEq] at h
    obtain ⟨h1, h2⟩ := h
    subst h2
    exact ⟨[], rfl, fun r' => by simp [readN, h1]⟩
  | succ n ih =>
    intro input x r h
    simp only [readN] at h
    cases hpi : p input with
    | none =>
      simp only [hpi] at h
      exact Option.noConfusion h
    | some v =>
      simp only [hpi] at h
      obtain ⟨a, r1⟩ := v
      cases hni : readN p n r1 with
      | none =>
        simp only [hni] at h
        exact Option.noConfusion h
      | some w =>
        simp only [hni] at h
        obtain ⟨as, r2⟩ := w
        simp only [Option.some.injEq, Prod.mk.injEq] at h
        obtain ⟨h1, h2⟩ := h
        obtain ⟨c1, hc1, hinv1⟩ := hp input a r1 hpi
        obtain ⟨c2, hc2, hinv2⟩ := ih r1 as r2 hni
        refine ⟨c1 ++ c2, ?_, fun r' => ?_⟩
        · rw [hc1, hc2, h2]
          simp
        · simp only [readN, List.append_assoc, hinv1 (c2 ++ r'), hinv2 r', h1]

theorem parserOk_readList {α : Type} {p : List Nat → Option (α × List Nat)}
    (hp : ParserOk p) : ParserOk (readList p) :=
  parserOk_pseq parserOk_readNat fun n => parserOk_readN hp n

/-! ### Packed bit arrays -/

/-- Value of a byte assembled from up to 8 bits (low bit first). -/
def byteOfBits : List Bool → Nat
  | [] => 0
  | b :: bs => (if b then 1 else 0) + 2 * byteOfBits bs

/-- The low `k` bits of a byte, low bit first. -/
def bitsOfByte : Nat → Nat → List Bool
  | _, 0 => []
  | b, k + 1 => decide (b % 2 = 1) :: bitsOfByte (b / 2) k

theorem bitsOfByte_byteOfBits (bs : List Bool) :
    bitsOfByte (byteOfBits bs) bs.length = bs := by
  induction bs with
  | nil => rfl
  | cons b bs ih =>
    simp only [byteOfBits, List.length_cons, bitsOfByte, List.cons.injEq]
    refine ⟨?_, ?_⟩
    · cases b
      · show decide ((0 + 2 * byteOfBits bs) % 2 = 1) = false
        simp only [decide_eq_false_iff_not]
        omega
      · show decide ((1 + 2 * byteOfBits bs) % 2 = 1) = true
        simp only [decide_eq_true_eq]
        omega
    · have hdiv : ((if b then 1 else 0) + 2 * byteOfBits bs) / 2 = byteOfBits bs := by
        cases b
        · show (0 + 2 * byteOfBits bs) / 2 = byteOfBits bs
          omega
        · show (1 + 2 * byteOfBits bs) / 2 = byteOfBits bs
          omega
      rw [hdiv, ih]

/-- Bit packing with structural fuel. -/
def packBitsGo : Nat → List Bool → List Nat
  | 0, _ => []
  | fuel + 1, bs =>
    if bs = [] then [] else byteOfBits (bs.take 8) :: packBitsGo fuel (bs.drop 8)

/-- Pack a bit vector into bytes, 8 bits per byte, low bit first. -/
def packBits (bs : List Bool) : List Nat := packBitsGo bs.length bs

theorem packBitsGo_irrel : ∀ (f1 : Nat), ∀ (bs : List Bool) (f2 : Nat),
    bs.length ≤ f1 → bs.length ≤ f2 → packBitsGo f1 bs = packBitsGo f2 bs := by
  intro f1
  induction f1 with
  | zero =>
    intro bs f2 h1 _
    have hbs : bs = [] := List.eq_nil_of_length_eq_zero (by omega)
    subst hbs
    cases f2 with
    | zero => rfl
    | succ f2 => simp [packBitsGo]
  | succ f1 ih =>
    intro bs f2 h1 h2
    cases bs with
    | nil =>
      cases f2 with
      | zero => rfl
      | succ f2 => rfl
    | cons b t =>
      cases f2 with
      | zero => simp at h2
      | succ f2 =>
        have hne : (b :: t) ≠ [] := by simp
        simp only [packBitsGo, if_neg hne]
        have hd : ((b :: t).drop 8).length ≤ f1 := by
          simp only [List.length_drop, List.length_cons]
          simp only [List.length_cons] at h1
          omega
        have hd2 : ((b :: t).drop 8).length ≤ f2 := by
          simp only [List.length_drop, List.length_cons]
          simp only [List.length_cons] at h2
          omega
        rw [ih ((b :: t).drop 8) f2 hd hd2]

theorem packBits_eq (bs : List Bool) :
    packBits bs = if bs = [] then []
      else byteOfBits (bs.take 8) :: packBits (bs.drop 8) := by
  unfold packBits
  cases bs with
  | nil => rfl
  | cons b t =>
    have hne : (b :: t) ≠ [] := by simp
    rw [if_neg hne]
    simp only [List.length_cons, packBitsGo, if_neg hne]
    have hd : ((b :: t).drop 8).length ≤ t.length := by
      simp only [List.length_drop, List.length_cons]
      omega
    rw [packBitsGo_irrel t.length ((b :: t).drop 8) ((b :: t).drop 8).length hd (le_refl _)]

/-- Read `n` packed bits (structural recursion on the byte list). -/
def readBits : Nat → List Nat → Option (List Bool × List Nat)
  | 0, input => some ([], input)
  | _ + 1, [] => none
  | n + 1, b :: input =>
    match readBits (n + 1 - min (n + 1) 8) input with
    | none => none
    | some (bs, r) => some (bitsOfByte b (min (n + 1) 8) ++ bs, r)

theorem readBits_zero (input : List Nat) : readBits 0 input = some ([], input) := by
  simp [readBits]

theorem readBits_succ_nil (n : Nat) : readBits (n + 1) [] = none := by
  simp [readBits]

theorem readBits_succ_cons (n b : Nat) (input : List Nat) :
    readBits (n + 1) (b :: input) =
      match readBits (n + 1 - min (n + 1) 8) input with
      | none => none
      | some (bs, r) => some (bitsOfByte b (min (n + 1) 8) ++ bs, r) := by
  simp [readBits]

theorem readBits_packBits_aux (n : Nat) : ∀ (bs : List Bool) (rest : List Nat),
    bs.length = n → readBits n (packBits bs ++ rest) = some (bs, rest) := by
  induction n using Nat.strong_induction_on with
  | _ n ih =>
    intro bs rest hn
    cases bs with
    | nil =>
      subst hn
      rw [show packBits [] = [] from rfl]
      exact readBits_zero rest
    | cons b0 bs0 =>
      subst hn
      rw [packBits_eq, if_neg (by simp : ¬(b0 :: bs0 = []))]
      rw [List.cons_append, List.length_cons, readBits_succ_cons]
      by_cases h8 : bs0.length + 1 ≤ 8
      · have htake : (b0 :: bs0).take 8 = b0 :: bs0 :=
          List.take_of_length_le (by simp only [List.length_cons]; omega)
        have hdrop : (b0 :: bs0).drop 8 = [] :=
          List.drop_eq_nil_of_le (by simp only [List.length_cons]; omega)
        have hmin : min (bs0.length + 1) 8 = bs0.length + 1 := by omega
        rw [htake, hdrop, hmin]
        rw [show packBits [] = [] from rfl]
        rw [List.nil_append, Nat.sub_self, readBits_zero]
        have hb := bitsOfByte_byteOfBits (b0 :: bs0)
        rw [List.length_cons] at hb
        simp [hb]
      · have hmin : min (bs0.length + 1) 8 = 8 := by omega
        rw [hmin]
        have hdlen : ((b0 :: bs0).drop 8).length = bs0.length + 1 - 8 := by
          simp [List.length_drop]
        have ihd := ih (bs0.length + 1 - 8)
          (by simp only [List.length_cons]; omega) ((b0 :: bs0).drop 8) rest hdlen
        simp only [ihd]
        have htlen : ((b0 :: bs0).take 8).length = 8 := by
          simp only [List.length_take, List.length_cons]
          omega
        have hbits := bitsOfByte_byteOfBits ((b0 :: bs0).take 8)
        rw [htlen] at hbits
        rw [hbits, List.take_append_drop]

theorem readBits_packBits (bs : List Bool) (rest : List Nat) :
    readBits bs.length (packBits bs ++ rest) = some (bs, rest) :=
  readBits_packBits_aux bs.length bs rest rfl

theorem parserOk_readBits (n : Nat) : ParserOk (readBits n) := by
  induction n using Nat.strong_induction_on with
  | _ n ih =>
    intro input x r h
    cases n with
    | zero =>
      rw [readBits_zero] at h
      simp only [Option.some.injEq, Prod.mk.injEq] at h
      obtain ⟨h1, h2⟩ := h
      refine ⟨[], by simp [h2], fun r' => ?_⟩
      rw [List.nil_append, readBits_zero, h1]
    | succ n =>
      cases input with
      | nil =>
        rw [readBits_succ_nil] at h
        exact Option.noConfusion h
      | cons b input =>
        rw [readBits_succ_cons] at h
        cases hri : readBits (n + 1 - min (n + 1) 8) input with
        | none =>
          simp only [hri] at h
          exact Option.noConfusion h
        | some v =>
          simp only [hri] at h
          obtain ⟨bs, r1⟩ := v
          simp only [Option.some.injEq, Prod.mk.injEq] at h
          obtain ⟨h1, h2⟩ := h
          obtain ⟨c, hc, hinv⟩ := ih (n + 1 - min (n + 1) 8) (by omega) input bs r1 hri
          refine ⟨b :: c, ?_, fun r' => ?_⟩
          · rw [hc, h2]
            simp
          · rw [List.cons_append, readBits_succ_cons]
            simp only [hinv r', h1]

/-- Count-prefixed packed bit-vector encoding. -/
def encodeBitVec (bs : List Bool) : List Nat :=
  encodeNat bs.length ++ packBits bs

/-- Read a bit vector and check its recorded length against the expected
class-definition count `n`. -/
def readBitVec (n : Nat) : List Nat → Option (List Bool × List Nat) :=
  pseq readNat fun m => pseq (pguard (m == n)) fun _ => readBits m

theorem readBitVec_encodeBitVec (bs : List Bool) (rest : List Nat) :
    readBitVec bs.length (encodeBitVec bs ++ rest) = some (bs, rest) := by
  simp only [readBitVec, encodeBitVec, pseq, List.append_assoc, readNat_encodeNat,
    pguard, beq_self_eq_true, if_true, readBits_packBits]

theorem readBitVec_len_ne (bs : List Bool) (n : Nat) (rest : List Nat)
    (h : bs.length ≠ n) : readBitVec n (encodeBitVec bs ++ rest) = none := by
  simp only [readBitVec, encodeBitVec, pseq, List.append_assoc, readNat_encodeNat, pguard]
  rw [if_neg]
  simp [h]

theorem parserOk_readBitVec (n : Nat) : ParserOk (readBitVec n) :=
  parserOk_pseq parserOk_readNat fun m =>
    parserOk_pseq (parserOk_pguard (m == n)) fun _ => parserOk_readBits m

/-! ## Data model (from `verifier_deps.h`)

`dex::TypeIndex`, `dex::StringIndex` and the member indices are modelled as
`Nat`; the 16-bit access-flags word keeps its `% 2 ^ 16` truncation explicit.
The tuple record types follow the header exactly. -/

/-- `kUnresolvedMarker = static_cast<uint16_t>(-1)` (header line 157). -/
def kUnresolvedMarker : Nat := 65535

/-- `ClassResolution = (type index, access flags)` (header lines 159-169). -/
abbrev ClassResolution := Nat × Nat

/-- `FieldResolution = (field index, access flags, declaring-class string id)`
(header lines 171-182). -/
abbrev FieldResolution := Nat × Nat × Nat

/-- `MethodResolution = (method index, access flags, declaring-class string id)`
(header lines 184-197). -/
abbrev MethodResolution := Nat × Nat × Nat

/-- `TypeAssignability = (destination string id, source string id)`
(header lines 199-208). -/
abbrev TypeAssignability := Nat × Nat

/-- `ClassResolution::IsResolved()` (header line 166). -/
def classIsResolved (r : ClassResolution) : Bool := r.2 ≠ kUnresolvedMarker

/-- `FieldResolution::IsResolved()` (header line 178). -/
def fieldIsResolved (r : FieldResolution) : Bool := r.2.1 ≠ kUnresolvedMarker

/-- `MethodResolution::IsResolved()` (header line 193). -/
def methodIsResolved (r : MethodResolution) : Bool := r.2.1 ≠ kUnresolvedMarker

/-- Strict total order used by `std::set<ClassResolution>` and
`std::set<TypeAssignability>`: lexicographic tuple comparison. -/
def lex2Lt (a b : Nat × Nat) : Bool := a.1 < b.1 || (a.1 = b.1 && a.2 < b.2)

/-- Strict total order used by `std::set<FieldResolution>` and
`std::set<MethodResolution>`: lexicographic tuple comparison. -/
def lex3Lt (a b : Nat × Nat × Nat) : Bool := a.1 < b.1 || (a.1 = b.1 && lex2Lt a.2 b.2)

/-- A dex file (module) as far as this subsystem observes it: its string
table and its number of class definitions. -/
structure DexFile where
  strings : List Str
  numClassDefs : Nat
deriving DecidableEq

/-- Fallback module for out-of-range lookups. -/
def defaultDexFile : DexFile := ⟨[], 0⟩

/-- `DexFileDeps` (header lines 212-242): dependencies collected during
verification of methods inside one dex file.  `std::set` fields are modelled
as sorted duplicate-free lists (their canonical iteration order). -/
structure DexFileDeps where
  strings_ : List Str
  assignable_types_ : List TypeAssignability
  unassignable_types_ : List TypeAssignability
  classes_ : List ClassResolution
  fields_ : List FieldResolution
  methods_ : List MethodResolution
  verified_classes_ : List Bool
  redefined_classes_ : List Bool
deriving DecidableEq

/-- `DexFileDeps::DexFileDeps(num_class_defs)` (header lines 213-215). -/
def DexFileDeps.init (numClassDefs : Nat) : DexFileDeps :=
  ⟨[], [], [], [], [], [], List.replicate numClassDefs false,
    List.replicate numClassDefs false⟩

/-- `DexFileDeps::Equals` (header line 241): full structural equality of all
recorded components. -/
def DexFileDeps.Equals (a b : DexFileDeps) : Prop :=
  a.strings_ = b.strings_ ∧
  a.assignable_types_ = b.assignable_types_ ∧
  a.unassignable_types_ = b.unassignable_types_ ∧
  a.classes_ = b.classes_ ∧
  a.fields_ = b.fields_ ∧
  a.methods_ = b.methods_ ∧
  a.verified_classes_ = b.verified_classes_ ∧
  a.redefined_classes_ = b.redefined_classes_

theorem DexFileDeps.equals_refl (a : DexFileDeps) : a.Equals a :=
  ⟨rfl, rfl, rfl, rfl, rfl, rfl, rfl, rfl⟩

/-- The top-level aggregate (header lines 399-403): one `DexFileDeps` per
compiled dex file (keyed here by position in the compiled-set order), plus
the `output_only_` mode flag fixed at construction. -/
structure VerifierDeps where
  dex_deps_ : List DexFileDeps
  output_only_ : Bool
deriving DecidableEq

/-- Constructor (header line 61): one empty `DexFileDeps` per dex file. -/
def VerifierDeps.init (dex_files : List DexFile) (output_only : Bool := true) :
    VerifierDeps :=
  ⟨dex_files.map fun dex => DexFileDeps.init dex.numClassDefs, output_only⟩

/-- `VerifierDeps::Equals` (header line 327): pointwise `DexFileDeps::Equals`
across the compiled set (the mode flag is not part of the recorded data). -/
def VerifierDeps.Equals (a b : VerifierDeps) : Prop :=
  a.dex_deps_.length = b.dex_deps_.length ∧
  ∀ i, i < a.dex_deps_.length →
    DexFileDeps.Equals (a.dex_deps_.getD i (DexFileDeps.init 0))
      (b.dex_deps_.getD i (DexFileDeps.init 0))

/-! ## Interning pool -/

/-- Modelled from the spec: `VerifierDeps::GetIdFromString` (header lines
270-275).  Returns the dex string id when `s` is in the dex file's own string
table; otherwise looks `s` up in the extra-string pool `pool` (the
`strings_` field of the owning `DexFileDeps`), appending it when absent, and
returns `NumStringIds() + index` together with the updated pool. -/
def GetIdFromString (dex : DexFile) (s : Str) (pool : List Str) :
    Nat × List Str :=
  match lookupIdx s dex.strings with
  | some i => (i, pool)
  | none =>
    match lookupIdx s pool with
    | some j => (dex.strings.length + j, pool)
    | none => (dex.strings.length + pool.length, pool ++ [s])

/-- Modelled from the spec: `VerifierDeps::GetStringFromId` (header lines
277-278).  Ids below the dex file's string count denote dex-file strings;
larger ids index the extra-string pool. -/
def GetStringFromId (dex : DexFile) (pool : List Str) (id : Nat) : Str :=
  if id < dex.strings.length then dex.strings.getD id []
  else pool.getD (id - dex.strings.length) []

theorem getIdFromString_pool_extends (dex : DexFile) (s : Str) (pool : List Str) :
    ∃ t, (GetIdFromString dex s pool).2 = pool ++ t := by
  unfold GetIdFromString
  cases lookupIdx s dex.strings with
  | some i => exact ⟨[], by simp⟩
  | none =>
    cases lookupIdx s pool with
    | some j => exact ⟨[], by simp⟩
    | none => exact ⟨[s], rfl⟩

theorem getIdFromString_id_lt (dex : DexFile) (s : Str) (pool : List Str) :
    (GetIdFromString dex s pool).1 <
      dex.strings.length + (GetIdFromString dex s pool).2.length := by
  unfold GetIdFromString
  cases h : lookupIdx s dex.strings with
  | some i =>
    have := lookupIdx_lt_length h
    simp only
    omega
  | none =>
    cases h2 : lookupIdx s pool with
    | some j =>
      have := lookupIdx_lt_length h2
      simp only
      omega
    | none =>
      simp only [List.length_append, List.length_cons, List.length_nil]
      omega

theorem getStringFromId_getIdFromString (dex : DexFile) (s : Str) (pool : List Str) :
    GetStringFromId dex (GetIdFromString dex s pool).2
      (GetIdFromString dex s pool).1 = s := by
  unfold GetIdFromString GetStringFromId
  cases h : lookupIdx s dex.strings with
  | some i =>
    have hlt := lookupIdx_lt_length h
    simp only [if_pos hlt]
    exact lookupIdx_getD h []
  | none =>
    cases h2 : lookupIdx s pool with
    | some j =>
      have hlt := lookupIdx_lt_length h2
      simp only
      rw [if_neg (by omega), Nat.add_sub_cancel_left]
      exact lookupIdx_getD h2 []
    | none =>
      simp only
      rw [if_neg (by omega), Nat.add_sub_cancel_left]
      simp

/-- Pool growth never changes the meaning of an id that was already valid. -/
theorem getStringFromId_extend (dex : DexFile) (pool ext : List Str) (id : Nat)
    (hid : id < dex.strings.length + pool.length) :
    GetStringFromId dex (pool ++ ext) id = GetStringFromId dex pool id := by
  unfold GetStringFromId
  by_cases h : id < dex.strings.length
  · simp [h]
  · rw [if_neg h, if_neg h]
    rw [List.getD_append]
    omega

/-! ## Live environment entities and the Recorder

The live class/field/method metadata provider is out of scope of the
subsystem; we model the facets the recorder and validator read: descriptor,
access-flags word, and which compiled-set module (if any) defines the
entity. -/

/-- A live class as observed by the recorder: its descriptor, its modifier
word, and the compiled-set module defining it (`none` = classpath entity or
synthesized class without an owning dex file). -/
structure RClass where
  descriptor : Str
  accessFlags : Nat
  definedIn : Option Nat
deriving DecidableEq

/-- A live field or method: its modifier word and its declaring class. -/
structure RMember where
  accessFlags : Nat
  declaringClass : RClass
deriving DecidableEq

/-- `VerifierDeps::IsInClassPath` (header lines 258-261): true if the class
is null or not defined in any of the compiled dex files. -/
def IsInClassPath (klass : Option RClass) : Bool :=
  match klass with
  | none => true
  | some c => c.definedIn.isNone

/-- `VerifierDeps::GetAccessFlags` (header lines 280-284): the bottom 16 bits
of the modifier word, or `kUnresolvedMarker` for a null element. -/
def GetAccessFlags (flags : Option Nat) : Nat :=
  match flags with
  | none => kUnresolvedMarker
  | some f => f % 65536

/-- Modelled from the spec: `VerifierDeps::AddClassResolution` (header lines
302-306, spec §4.1).  Records `(type_idx, access flags)` iff the outcome is
classpath-sensitive: the class is unresolved or defined outside the compiled
set; otherwise the Dependency Set is unchanged. -/
def AddClassResolution (type_idx : Nat) (klass : Option RClass)
    (d : DexFileDeps) : DexFileDeps :=
  if IsInClassPath klass then
    let r : ClassResolution := (type_idx, GetAccessFlags (klass.map RClass.accessFlags))
    { d with classes_ := insertOrdered lex2Lt r d.classes_ }
  else d

/-- Modelled from the spec: `VerifierDeps::GetFieldDeclaringClassStringId` /
`GetMethodDeclaringClassStringId` (header lines 286-295): the interned id of
the declaring class's descriptor, or `kUnresolvedMarker` for a null element. -/
def GetDeclaringClassStringId (dex : DexFile) (member : Option RMember)
    (pool : List Str) : Nat × List Str :=
  match member with
  | none => (kUnresolvedMarker, pool)
  | some m => GetIdFromString dex m.declaringClass.descriptor pool

/-- Modelled from the spec: `VerifierDeps::AddFieldResolution` (header lines
308-312, spec §4.1).  Records `(field_idx, access flags, declaring-class
string id)` iff the field is unresolved or its declaring class is a
classpath entity. -/
def AddFieldResolution (dex : DexFile) (field_idx : Nat)
    (field : Option RMember) (d : DexFileDeps) : DexFileDeps :=
  if IsInClassPath (field.map RMember.declaringClass) then
    let idPool := GetDeclaringClassStringId dex field d.strings_
    let r : FieldResolution := (field_idx, GetAccessFlags (field.map RMember.accessFlags), idPool.1)
    { d with strings_ := idPool.2, fields_ := insertOrdered lex3Lt r d.fields_ }
  else d

/-- Modelled from the spec: `VerifierDeps::AddMethodResolution` (header lines
314-318, spec §4.1). -/
def AddMethodResolution (dex : DexFile) (method_idx : Nat)
    (method : Option RMember) (d : DexFileDeps) : DexFileDeps :=
  if IsInClassPath (method.map RMember.declaringClass) then
    let idPool := GetDeclaringClassStringId dex method d.strings_
    let r : MethodResolution := (method_idx, GetAccessFlags (method.map RMember.accessFlags), idPool.1)
    { d with strings_ := idPool.2, methods_ := insertOrdered lex3Lt r d.methods_ }
  else d

/-- Modelled from the spec: `VerifierDeps::AddAssignability` (header lines
320-325, spec §4.1).  A `(destination, source)` pair is recorded iff at
least one endpoint is a classpath entity; it goes into `assignable_types_`
or `unassignable_types_` according to the outcome; the strictness flag of
the test is not persisted. -/
def AddAssignability (dex : DexFile) (destination source : RClass)
    (is_strict is_assignable : Bool) (d : DexFileDeps) : DexFileDeps :=
  if IsInClassPath (some destination) || IsInClassPath (some source) then
    let dst := GetIdFromString dex destination.descriptor d.strings_
    let src := GetIdFromString dex source.descriptor dst.2
    let p : TypeAssignability := (dst.1, src.1)
    if is_assignable then
      { d with strings_ := src.2, assignable_types_ := insertOrdered lex2Lt p d.assignable_types_ }
    else
      { d with strings_ := src.2, unassignable_types_ := insertOrdered lex2Lt p d.unassignable_types_ }
  else d

/-- `VerifierDeps::RecordClassVerified` (header lines 70-74): set the bit for
this class-definition index in `verified_classes_`. -/
def RecordClassVerified (class_def_idx : Nat) (d : DexFileDeps) : DexFileDeps :=
  { d with verified_classes_ := d.verified_classes_.set class_def_idx true }

/-- `VerifierDeps::MaybeRecordClassRedefinition` (header lines 82-85): set
the bit for this class-definition index in `redefined_classes_`. -/
def RecordClassRedefinition (class_def_idx : Nat) (d : DexFileDeps) : DexFileDeps :=
  { d with redefined_classes_ := d.redefined_classes_.set class_def_idx true }

/-! ### Recorder event traces

A verification pass is a sequence of recorder invocations; each event names
the module (by position in the compiled set) whose code performed the test
and carries the outcome the external verifier observed. -/

/-- One recorder invocation. -/
inductive REvent where
  | classRes (i type_idx : Nat) (klass : Option RClass)
  | fieldRes (i field_idx : Nat) (field : Option RMember)
  | methodRes (i method_idx : Nat) (method : Option RMember)
  | assign (i : Nat) (destination source : RClass) (is_strict is_assignable : Bool)
  | verified (i class_def_idx : Nat)
  | redefined (i class_def_idx : Nat)
deriving DecidableEq

/-- Apply one recorder event to the aggregate (a `Maybe*` recorder hook). -/
def applyEvent (M : List DexFile) (D : List DexFileDeps) (e : REvent) :
    List DexFileDeps :=
  match e with
  | .classRes i t k => modifyAt i (AddClassResolution t k) D
  | .fieldRes i fi f =>
    modifyAt i (AddFieldResolution (M.getD i defaultDexFile) fi f) D
  | .methodRes i mi m =>
    modifyAt i (AddMethodResolution (M.getD i defaultDexFile) mi m) D
  | .assign i dst src st b =>
    modifyAt i (AddAssignability (M.getD i defaultDexFile) dst src st b) D
  | .verified i c => modifyAt i (RecordClassVerified c) D
  | .redefined i c => modifyAt i (RecordClassRedefinition c) D

/-- The per-module Dependency Sets created by the constructor. -/
def initDeps (M : List DexFile) : List DexFileDeps :=
  M.map fun dex => DexFileDeps.init dex.numClassDefs

/-- Aggregate produced by a whole recording pass. -/
def generate (M : List DexFile) (events : List REvent) : List DexFileDeps :=
  events.foldl (applyEvent M) (initDeps M)

/-! ## Codec

Modelled from the spec (§4.2): for each module in list order the Dependency
Set's fields are emitted in a fixed field order — extra strings, assignable
pairs, unassignable pairs, class/field/method resolution sets, then the two
bit vectors — with count-prefixed encodings for every set/sequence and a
packed bit array (with its length, checked against the module's
class-definition count on decode) for each bit-vector field. -/

/-- Length-prefixed string encoding. -/
def encodeStr (s : Str) : List Nat := encodeNat s.length ++ s

/-- String parser. -/
def readStr : List Nat → Option (Str × List Nat) :=
  pseq readNat fun n => readBytes n

theorem readStr_encodeStr (s : Str) (rest : List Nat) :
    readStr (encodeStr s ++ rest) = some (s, rest) := by
  simp only [readStr, encodeStr, pseq, List.append_assoc, readNat_encodeNat,
    readBytes_append]

theorem parserOk_readStr : ParserOk readStr :=
  parserOk_pseq parserOk_readNat fun n => parserOk_readBytes n

/-- Encoding of a `(Nat, Nat)` record. -/
def encodePair (p : Nat × Nat) : List Nat := encodeNat p.1 ++ encodeNat p.2

/-- Parser for a `(Nat, Nat)` record. -/
def readPair : List Nat → Option ((Nat × Nat) × List Nat) :=
  pseq readNat fun a => pseq readNat fun b => pret (a, b)

theorem readPair_encodePair (p : Nat × Nat) (rest : List Nat) :
    readPair (encodePair p ++ rest) = some (p, rest) := by
  simp only [readPair, encodePair, pseq, pret, List.append_assoc, readNat_encodeNat]

theorem parserOk_readPair : ParserOk readPair :=
  parserOk_pseq parserOk_readNat fun a =>
    parserOk_pseq parserOk_readNat fun b => parserOk_pret (a, b)

/-- Encoding of a `(Nat, Nat, Nat)` record. -/
def encodeTriple (p : Nat × Nat × Nat) : List Nat :=
  encodeNat p.1 ++ encodeNat p.2.1 ++ encodeNat p.2.2

/-- Parser for a `(Nat, Nat, Nat)` record. -/
def readTriple : List Nat → Option ((Nat × Nat × Nat) × List Nat) :=
  pseq readNat fun a => pseq readNat fun b => pseq readNat fun c => pret (a, b, c)

theorem readTriple_encodeTriple (p : Nat × Nat × Nat) (rest : List Nat) :
    readTriple (encodeTriple p ++ rest) = some (p, rest) := by
  simp only [readTriple, encodeTriple, pseq, pret, List.append_assoc, readNat_encodeNat]

theorem parserOk_readTriple : ParserOk readTriple :=
  parserOk_pseq parserOk_readNat fun a =>
    parserOk_pseq parserOk_readNat fun b =>
      parserOk_pseq parserOk_readNat fun c => parserOk_pret (a, b, c)

/-- Byte encoding of one module's Dependency Set. -/
def encodeDexFileDeps (d : DexFileDeps) : List Nat :=
  encodeList encodeStr d.strings_ ++
  encodeList encodePair d.assignable_types_ ++
  encodeList encodePair d.unassignable_types_ ++
  encodeList encodePair d.classes_ ++
  encodeList encodeTriple d.fields_ ++
  encodeList encodeTriple d.methods_ ++
  encodeBitVec d.verified_classes_ ++
  encodeBitVec d.redefined_classes_

/-- `VerifierDeps::DecodeDexFileDeps` (header lines 244-250), modelled from
the spec: parses one module's record, failing on truncation and on a
bit-vector length that disagrees with the module's class-definition count. -/
def DecodeDexFileDeps (num_class_defs : Nat) :
    List Nat → Option (DexFileDeps × List Nat) :=
  pseq (readList readStr) fun strs =>
  pseq (readList readPair) fun asg =>
  pseq (readList readPair) fun unasg =>
  pseq (readList readPair) fun cls =>
  pseq (readList readTriple) fun flds =>
  pseq (readList readTriple) fun mths =>
  pseq (readBitVec num_class_defs) fun vc =>
  pseq (readBitVec num_class_defs) fun rc =>
  pret ⟨strs, asg, unasg, cls, flds, mths, vc, rc⟩

theorem parserOk_decodeDexFileDeps (n : Nat) : ParserOk (DecodeDexFileDeps n) :=
  parserOk_pseq (parserOk_readList parserOk_readStr) fun strs =>
  parserOk_pseq (parserOk_readList parserOk_readPair) fun asg =>
  parserOk_pseq (parserOk_readList parserOk_readPair) fun unasg =>
  parserOk_pseq (parserOk_readList parserOk_readPair) fun cls =>
  parserOk_pseq (parserOk_readList parserOk_readTriple) fun flds =>
  parserOk_pseq (parserOk_readList parserOk_readTriple) fun mths =>
  parserOk_pseq (parserOk_readBitVec n) fun vc =>
  parserOk_pseq (parserOk_readBitVec n) fun rc =>
  parserOk_pret ⟨strs, asg, unasg, cls, flds, mths, vc, rc⟩

theorem decodeDexFileDeps_encodeDexFileDeps (d : DexFileDeps) (n : Nat)
    (hv : d.verified_classes_.length = n) (hr : d.redefined_classes_.length = n)
    (rest : List Nat) :
    DecodeDexFileDeps n (encodeDexFileDeps d ++ rest) = some (d, rest) := by
  subst hv
  simp only [DecodeDexFileDeps, encodeDexFileDeps, pseq, pret, List.append_assoc,
    readList_encodeList readStr_encodeStr,
    readList_encodeList readPair_encodePair,
    readList_encodeList readTriple_encodeTriple,
    readBitVec_encodeBitVec, hr ▸ readBitVec_encodeBitVec d.redefined_classes_ rest]

/-- Decode fails on a bit-vector length disagreeing with the module's
class-definition count. -/
theorem decodeDexFileDeps_len_mismatch (d : DexFileDeps) (n : Nat)
    (hv : d.verified_classes_.length ≠ n) (rest : List Nat) :
    DecodeDexFileDeps n (encodeDexFileDeps d ++ rest) = none := by
  simp only [DecodeDexFileDeps, encodeDexFileDeps, pseq, pret, List.append_assoc,
    readList_encodeList readStr_encodeStr,
    readList_encodeList readPair_encodePair,
    readList_encodeList readTriple_encodeTriple,
    readBitVec_len_ne d.verified_classes_ n _ hv]

/-- Parse all modules' records, in compiled-set order. -/
def decodeAll : List DexFile → List Nat → Option (List DexFileDeps × List Nat)
  | [], input => some ([], input)
  | dex :: M, input =>
    match DecodeDexFileDeps dex.numClassDefs input with
    | none => none
    | some (d, r) =>
      match decodeAll M r with
      | none => none
      | some (ds, r') => some (d :: ds, r')

theorem parserOk_decodeAll (M : List DexFile) : ParserOk (decodeAll M) := by
  induction M with
  | nil =>
    intro input x r h
    simp only [decodeAll, Option.some.injEq, Prod.mk.injEq] at h
    obtain ⟨h1, h2⟩ := h
    refine ⟨[], by simp [h2], fun r' => ?_⟩
    simp [decodeAll, h1]
  | cons dex M ih =>
    intro input x r h
    simp only [decodeAll] at h
    cases hpi : DecodeDexFileDeps dex.numClassDefs input with
    | none =>
      simp only [hpi] at h
      exact Option.noConfusion h
    | some v =>
      simp only [hpi] at h
      obtain ⟨d, r1⟩ := v
      cases hni : decodeAll M r1 with
      | none =>
        simp only [hni] at h
        exact Option.noConfusion h
      | some w =>
        simp only [hni] at h
        obtain ⟨ds, r2⟩ := w
        simp only [Option.some.injEq, Prod.mk.injEq] at h
        obtain ⟨h1, h2⟩ := h
        obtain ⟨c1, hc1, hinv1⟩ := parserOk_decodeDexFileDeps dex.numClassDefs input d r1 hpi
        obtain ⟨c2, hc2, hinv2⟩ := ih r1 ds r2 hni
        refine ⟨c1 ++ c2, ?_, fun r' => ?_⟩
        · rw [hc1, hc2, h2]
          simp
        · simp only [decodeAll, List.append_assoc, hinv1 (c2 ++ r'), hinv2 r', h1]

/-- `VerifierDeps::Encode` (header lines 122-125), modelled from the spec:
emit each module's Dependency Set in the order given by `dex_files`. -/
def Encode (dex_files : List DexFile) (x : VerifierDeps) : List Nat :=
  encodeSeq encodeDexFileDeps x.dex_deps_

/-- `VerifierDeps::ParseStoredData` (header lines 63-64), modelled from the
spec: decode all modules' records; fail on truncated input, on bit-vector
length mismatch, and on trailing unconsumed bytes, constructing no usable
aggregate in that case. -/
def ParseStoredData (dex_files : List DexFile) (data : List Nat) :
    Option VerifierDeps :=
  match decodeAll dex_files data with
  | some (ds, []) => some ⟨ds, false⟩
  | _ => none

/-- Well-formedness tying an aggregate to its compiled set: one Dependency
Set per module, with bit vectors sized to the module's class-definition
count (guaranteed by construction and decode). -/
def wfDeps : List DexFile → List DexFileDeps → Bool
  | [], [] => true
  | dex :: M, d :: ds =>
    d.verified_classes_.length == dex.numClassDefs &&
    d.redefined_classes_.length == dex.numClassDefs && wfDeps M ds
  | _, _ => false

theorem decodeAll_encode (M : List DexFile) (ds : List DexFileDeps)
    (hwf : wfDeps M ds = true) (rest : List Nat) :
    decodeAll M (encodeSeq encodeDexFileDeps ds ++ rest) = some (ds, rest) := by
  induction M generalizing ds rest with
  | nil =>
    cases ds with
    | nil => simp [decodeAll, encodeSeq]
    | cons d ds => simp [wfDeps] at hwf
  | cons dex M ih =>
    cases ds with
    | nil => simp [wfDeps] at hwf
    | cons d ds =>
      simp only [wfDeps, Bool.and_eq_true, beq_iff_eq] at hwf
      obtain ⟨⟨hv, hr⟩, hwf'⟩ := hwf
      simp only [encodeSeq, List.append_assoc, decodeAll,
        decodeDexFileDeps_encodeDexFileDeps d dex.numClassDefs hv hr, ih ds hwf']

/-! ## Merger

Modelled from the spec (§4.3): combines `other` into `this`, both declared
over the identical ordered module list.  Set-valued fields take the union;
string ids local to `other` are remapped by re-interning the referenced
string through `this`'s pool; `verified_classes_` is combined with AND and
`redefined_classes_` with OR. -/

/-- Remap a string id of `other` (whose extra-string pool is `bpool`) into
`this`'s pool `apool`: dex-file ids are shared and kept; extra-string ids
are re-interned by content; ids outside both ranges (in particular the
`kUnresolvedMarker` sentinel of unresolved records) pass through unchanged. -/
def remapOne (dex : DexFile) (bpool : List Str) (id : Nat) (apool : List Str) :
    Nat × List Str :=
  if id < dex.strings.length then (id, apool)
  else if id - dex.strings.length < bpool.length then
    GetIdFromString dex (bpool.getD (id - dex.strings.length) []) apool
  else (id, apool)

/-- One step of the field/method-set union: remap the declaring-class id of
one of `other`'s records and insert the remapped record. -/
def mergeTripleStep (dex : DexFile) (bpool : List Str)
    (st : List (Nat × Nat × Nat) × List Str) (r : Nat × Nat × Nat) :
    List (Nat × Nat × Nat) × List Str :=
  (insertOrdered lex3Lt (r.1, r.2.1, (remapOne dex bpool r.2.2 st.2).1) st.1,
    (remapOne dex bpool r.2.2 st.2).2)

/-- Union `other`'s field/method records into an accumulator, remapping each
declaring-class string id and growing the pool as needed. -/
def mergeTriples (dex : DexFile) (bpool : List Str) (rs : List (Nat × Nat × Nat))
    (st : List (Nat × Nat × Nat) × List Str) : List (Nat × Nat × Nat) × List Str :=
  rs.foldl (mergeTripleStep dex bpool) st

/-- One step of the assignability-pair union: remap both string ids of one
of `other`'s pairs and insert the remapped pair. -/
def mergePairStep (dex : DexFile) (bpool : List Str)
    (st : List (Nat × Nat) × List Str) (r : Nat × Nat) :
    List (Nat × Nat) × List Str :=
  (insertOrdered lex2Lt ((remapOne dex bpool r.1 st.2).1,
      (remapOne dex bpool r.2 (remapOne dex bpool r.1 st.2).2).1) st.1,
    (remapOne dex bpool r.2 (remapOne dex bpool r.1 st.2).2).2)

/-- Union `other`'s assignability pairs into an accumulator, remapping both
string ids. -/
def mergePairs (dex : DexFile) (bpool : List Str) (rs : List (Nat × Nat))
    (st : List (Nat × Nat) × List Str) : List (Nat × Nat) × List Str :=
  rs.foldl (mergePairStep dex bpool) st

/-- Merge one module's Dependency Sets. -/
def mergeDexFileDeps (dex : DexFile) (a b : DexFileDeps) : DexFileDeps :=
  let cls := b.classes_.foldl (fun cs r => insertOrdered lex2Lt r cs) a.classes_
  let fm := mergeTriples dex b.strings_ b.fields_ (a.fields_, a.strings_)
  let mm := mergeTriples dex b.strings_ b.methods_ (a.methods_, fm.2)
  let am := mergePairs dex b.strings_ b.assignable_types_ (a.assignable_types_, mm.2)
  let um := mergePairs dex b.strings_ b.unassignable_types_ (a.unassignable_types_, am.2)
  { strings_ := um.2
    assignable_types_ := am.1
    unassignable_types_ := um.1
    classes_ := cls
    fields_ := fm.1
    methods_ := mm.1
    verified_classes_ := List.zipWith and a.verified_classes_ b.verified_classes_
    redefined_classes_ := List.zipWith or a.redefined_classes_ b.redefined_classes_ }

/-- Merge all modules, in compiled-set order. -/
def mergeAll : List DexFile → List DexFileDeps → List DexFileDeps → List DexFileDeps
  | dex :: M, a :: as, b :: bs => mergeDexFileDeps dex a b :: mergeAll M as bs
  | _, _, _ => []

/-- `VerifierDeps::MergeWith` (header lines 66-68), modelled from the spec. -/
def MergeWith (this_ other : VerifierDeps) (dex_files : List DexFile) : VerifierDeps :=
  ⟨mergeAll dex_files this_.dex_deps_ other.dex_deps_, this_.output_only_⟩

/-! ## Validator

Modelled from the spec (§4.4): re-derive every recorded fact against the
live environment.  The environment bundles what the class-loader context
provides: index-based re-resolution per module, the live assignability
test on descriptors, and whether a class-definition is now eclipsed by a
same-descriptor class earlier in resolution order. -/

/-- The live environment consulted at validation time. -/
structure LiveEnv where
  resolveClass : Nat → Nat → Option RClass
  resolveField : Nat → Nat → Option RMember
  resolveMethod : Nat → Nat → Option RMember
  assignable : Str → Str → Bool
  eclipsed : Nat → Nat → Bool

/-- Re-check one class resolution record: same resolved/unresolved status,
and same access flags when resolved. -/
def checkClassRes (env : LiveEnv) (i : Nat) (r : ClassResolution) : Bool :=
  match env.resolveClass i r.1 with
  | none => !classIsResolved r
  | some c => classIsResolved r && (r.2 == c.accessFlags % 65536)

/-- Re-check one field resolution record: same status, same access flags,
same declaring-class descriptor. -/
def checkFieldRes (env : LiveEnv) (dex : DexFile) (pool : List Str) (i : Nat)
    (r : FieldResolution) : Bool :=
  match env.resolveField i r.1 with
  | none => !fieldIsResolved r
  | some f =>
    fieldIsResolved r && (r.2.1 == f.accessFlags % 65536) &&
      (GetStringFromId dex pool r.2.2 == f.declaringClass.descriptor)

/-- Re-check one method resolution record. -/
def checkMethodRes (env : LiveEnv) (dex : DexFile) (pool : List Str) (i : Nat)
    (r : MethodResolution) : Bool :=
  match env.resolveMethod i r.1 with
  | none => !methodIsResolved r
  | some m =>
    methodIsResolved r && (r.2.1 == m.accessFlags % 65536) &&
      (GetStringFromId dex pool r.2.2 == m.declaringClass.descriptor)

/-- `VerifierDeps::VerifyInternalClasses` (header lines 354-359), modelled
from the spec: every class verified at generation time and not recorded as
redefined must not be eclipsed now. -/
def VerifyInternalClasses (env : LiveEnv) (i : Nat) (d : DexFileDeps) : Bool :=
  (List.range d.verified_classes_.length).all fun c =>
    !(d.verified_classes_.getD c false) || d.redefined_classes_.getD c false ||
      !(env.eclipsed i c)

/-- `VerifierDeps::VerifyDexFile` (header lines 329-338), modelled from the
spec: re-check every recorded fact of one module. -/
def VerifyDexFile (env : LiveEnv) (dex : DexFile) (i : Nat) (d : DexFileDeps) : Bool :=
  d.classes_.all (checkClassRes env i) &&
  d.fields_.all (checkFieldRes env dex d.strings_ i) &&
  d.methods_.all (checkMethodRes env dex d.strings_ i) &&
  d.assignable_types_.all (fun p =>
    env.assignable (GetStringFromId dex d.strings_ p.1) (GetStringFromId dex d.strings_ p.2)) &&
  d.unassignable_types_.all (fun p =>
    !env.assignable (GetStringFromId dex d.strings_ p.1) (GetStringFromId dex d.strings_ p.2)) &&
  VerifyInternalClasses env i d

/-- `VerifierDeps::ValidateDependencies` (header lines 129-134), modelled
from the spec: all recorded facts of all modules must still hold. -/
def ValidateDependencies (env : LiveEnv) (M : List DexFile) (D : List DexFileDeps) : Bool :=
  (List.range M.length).all fun i =>
    VerifyDexFile env (M.getD i defaultDexFile) i (D.getD i (DexFileDeps.init 0))

/-! ## Canonical order of the record sets -/

theorem lex2Lt_trans {a b c : Nat × Nat} (hab : lex2Lt a b = true)
    (hbc : lex2Lt b c = true) : lex2Lt a c = true := by
  simp only [lex2Lt, Bool.or_eq_true, Bool.and_eq_true, decide_eq_true_eq] at *
  omega

theorem lex2Lt_irrefl (a : Nat × Nat) : lex2Lt a a = false := by
  simp only [lex2Lt, Bool.or_eq_false_iff, Bool.and_eq_false_iff]
  refine ⟨by simp, Or.inr (by simp)⟩

theorem lex2Lt_total {a b : Nat × Nat} (h : a ≠ b) :
    lex2Lt a b = true ∨ lex2Lt b a = true := by
  obtain ⟨a1, a2⟩ := a
  obtain ⟨b1, b2⟩ := b
  simp only [Ne, Prod.mk.injEq, not_and] at h
  simp only [lex2Lt, Bool.or_eq_true, Bool.and_eq_true, decide_eq_true_eq]
  by_cases h1 : a1 = b1
  · subst h1
    have h2 : a2 ≠ b2 := fun hc => h rfl hc
    omega
  · omega

theorem lex3Lt_trans {a b c : Nat × Nat × Nat} (hab : lex3Lt a b = true)
    (hbc : lex3Lt b c = true) : lex3Lt a c = true := by
  simp only [lex3Lt, lex2Lt, Bool.or_eq_true, Bool.and_eq_true, decide_eq_true_eq] at *
  omega

theorem lex3Lt_irrefl (a : Nat × Nat × Nat) : lex3Lt a a = false := by
  simp only [lex3Lt, Bool.or_eq_false_iff, Bool.and_eq_false_iff]
  exact ⟨by simp, Or.inr (by simp [lex2Lt_irrefl])⟩

theorem lex3Lt_total {a b : Nat × Nat × Nat} (h : a ≠ b) :
    lex3Lt a b = true ∨ lex3Lt b a = true := by
  obtain ⟨a1, a2, a3⟩ := a
  obtain ⟨b1, b2, b3⟩ := b
  simp only [Ne, Prod.mk.injEq, not_and] at h
  simp only [lex3Lt, lex2Lt, Bool.or_eq_true, Bool.and_eq_true, decide_eq_true_eq]
  by_cases h1 : a1 = b1
  · subst h1
    by_cases h2 : a2 = b2
    · subst h2
      have h3 : a3 ≠ b3 := fun hc => h rfl rfl hc
      omega
    · omega
  · omega

/-- Sorted (by a strict total order) duplicate-free lists with the same
members are equal: the canonical-iteration-order property of `std::set`. -/
theorem sorted_mem_ext {α : Type} (lt : α → α → Bool)
    (htr : ∀ a b c, lt a b = true → lt b c = true → lt a c = true)
    (hirr : ∀ a, lt a a = false) :
    ∀ (A B : List α), A.Pairwise (fun a b => lt a b = true) →
      B.Pairwise (fun a b => lt a b = true) → (∀ x, x ∈ A ↔ x ∈ B) → A = B := by
  intro A
  induction A with
  | nil =>
    intro B _ _ hmem
    cases B with
    | nil => rfl
    | cons b B' => exact absurd ((hmem b).mpr (List.mem_cons_self b B')) (by simp)
  | cons a A' ih =>
    intro B hA hB hmem
    cases B with
    | nil => exact absurd ((hmem a).mp (List.mem_cons_self a A')) (by simp)
    | cons b B' =>
      have hAp := List.pairwise_cons.mp hA
      have hBp := List.pairwise_cons.mp hB
      have hab : a = b := by
        by_contra hne
        have haB : a ∈ b :: B' := (hmem a).mp (List.mem_cons_self a A')
        have hbA : b ∈ a :: A' := (hmem b).mpr (List.mem_cons_self b B')
        rcases List.mem_cons.mp haB with h1 | h1
        · exact hne h1
        · rcases List.mem_cons.mp hbA with h2 | h2
          · exact hne h2.symm
          · have hba : lt b a = true := hBp.1 a h1
            have hab' : lt a b = true := hAp.1 b h2
            have := htr a b a hab' hba
            rw [hirr a] at this
            cases this
      subst hab
      have hmem' : ∀ x, x ∈ A' ↔ x ∈ B' := by
        intro x
        constructor
        · intro hx
          have : x ∈ a :: B' := (hmem x).mp (List.mem_cons_of_mem a hx)
          rcases List.mem_cons.mp this with h1 | h1
          · subst h1
            have := hAp.1 x hx
            rw [hirr x] at this
            cases this
          · exact h1
        · intro hx
          have : x ∈ a :: A' := (hmem x).mpr (List.mem_cons_of_mem a hx)
          rcases List.mem_cons.mp this with h1 | h1
          · subst h1
            have := hBp.1 x hx
            rw [hirr x] at this
            cases this
          · exact h1
      rw [ih B' hAp.2 hBp.2 hmem']

/-- Same logical content of a record set: both lists are in canonical sorted
duplicate-free form and have the same members. -/
def SetContentEq {α : Type} (lt : α → α → Bool) (A B : List α) : Prop :=
  A.Pairwise (fun a b => lt a b = true) ∧ B.Pairwise (fun a b => lt a b = true) ∧
    ∀ x, x ∈ A ↔ x ∈ B

theorem setContentEq_eq_lex2 {A B : List (Nat × Nat)} (h : SetContentEq lex2Lt A B) :
    A = B :=
  sorted_mem_ext lex2Lt (fun _ _ _ => lex2Lt_trans) lex2Lt_irrefl A B h.1 h.2.1 h.2.2

theorem setContentEq_eq_lex3 {A B : List (Nat × Nat × Nat)}
    (h : SetContentEq lex3Lt A B) : A = B :=
  sorted_mem_ext lex3Lt (fun _ _ _ => lex3Lt_trans) lex3Lt_irrefl A B h.1 h.2.1 h.2.2

/-- Equal logical content of two Dependency Sets: identical extra-string
sequences and bit vectors, and member-equal canonical record sets. -/
def SameContent (a b : DexFileDeps) : Prop :=
  a.strings_ = b.strings_ ∧
  SetContentEq lex2Lt a.assignable_types_ b.assignable_types_ ∧
  SetContentEq lex2Lt a.unassignable_types_ b.unassignable_types_ ∧
  SetContentEq lex2Lt a.classes_ b.classes_ ∧
  SetContentEq lex3Lt a.fields_ b.fields_ ∧
  SetContentEq lex3Lt a.methods_ b.methods_ ∧
  a.verified_classes_ = b.verified_classes_ ∧
  a.redefined_classes_ = b.redefined_classes_

theorem sameContent_eq {a b : DexFileDeps} (h : SameContent a b) : a = b := by
  obtain ⟨h1, h2, h3, h4, h5, h6, h7, h8⟩ := h
  cases a
  cases b
  simp only at h1 h7 h8
  simp only [DexFileDeps.mk.injEq]
  exact ⟨h1, setContentEq_eq_lex2 h2, setContentEq_eq_lex2 h3, setContentEq_eq_lex2 h4,
    setContentEq_eq_lex3 h5, setContentEq_eq_lex3 h6, h7, h8⟩

theorem listEqOfGetD {α : Type} (d : α) : ∀ (A B : List α), A.length = B.length →
    (∀ i, i < A.length → A.getD i d = B.getD i d) → A = B := by
  intro A
  induction A with
  | nil =>
    intro B hlen _
    cases B with
    | nil => rfl
    | cons b B' => cases hlen
  | cons a A' ih =>
    intro B hlen h
    cases B with
    | nil => cases hlen
    | cons b B' =>
      have h0 := h 0 (by simp)
      simp only [List.getD_cons_zero] at h0
      subst h0
      have h' : ∀ i, i < A'.length → A'.getD i d = B'.getD i d := by
        intro i hi
        have := h (i + 1) (by simp only [List.length_cons]; omega)
        simpa using this
      rw [ih B' (by simpa using hlen) h']

/-- When a string is absent from the pool, appending it interns it at the
next index. -/
theorem lookupIdx_append_self {α : Type} [DecidableEq α] (s : α) (pool : List α)
    (h : s ∉ pool) : lookupIdx s (pool ++ [s]) = some pool.length := by
  induction pool with
  | nil => simp [lookupIdx]
  | cons t l ih =>
    have hts : t ≠ s := fun hc => h (by simp [hc])
    have hsl : s ∉ l := fun hc => h (List.mem_cons_of_mem t hc)
    simp only [List.cons_append, lookupIdx, if_neg hts, List.append_eq, ih hsl,
      Option.map_some', List.length_cons]

/-! ## Claim theorems -/

/-- C7: Encoding is a deterministic function of the aggregate's logical
content and the supplied module ordering: two aggregates whose Dependency
Sets have equal logical content per module — identical extra-string
sequences and bit vectors, and record sets in canonical (sorted,
duplicate-free) form with the same members, however the facts were inserted
— encode to byte-identical output, because each set is emitted following
its total order. -/
theorem encode_canonical (M : List DexFile) (A B : VerifierDeps)
    (hlen : A.dex_deps_.length = B.dex_deps_.length)
    (h : ∀ i, i < A.dex_deps_.length →
      SameContent (A.dex_deps_.getD i (DexFileDeps.init 0))
        (B.dex_deps_.getD i (DexFileDeps.init 0))) :
    Encode M A = Encode M B := by
  have hdeps : A.dex_deps_ = B.dex_deps_ :=
    listEqOfGetD (DexFileDeps.init 0) A.dex_deps_ B.dex_deps_ hlen
      (fun i hi => sameContent_eq (h i hi))
  unfold Encode
  rw [hdeps]

theorem encode_canonical_witness :
    Encode [⟨[], 1⟩]
      ⟨[⟨[[65]], [(0, 1)], [], [(2, 7)], [], [], [true], [false]⟩], true⟩ =
    Encode [⟨[], 1⟩]
      ⟨[⟨[[65]], [(0, 1)], [], [(2, 7)], [], [], [true], [false]⟩], false⟩ :=
  encode_canonical [⟨[], 1⟩] _ _ rfl
    (fun i hi => by
      have hz : i = 0 := by
        simp only [List.length_cons, List.length_nil] at hi
        omega
      subst hz
      exact ⟨rfl, ⟨by decide, by decide, fun x => Iff.rfl⟩,
        ⟨by decide, by decide, fun x => Iff.rfl⟩, ⟨by decide, by decide, fun x => Iff.rfl⟩,
        ⟨by decide, by decide, fun x => Iff.rfl⟩, ⟨by decide, by decide, fun x => Iff.rfl⟩,
        rfl, rfl⟩)

/-- C5: a class/field/method resolution outcome is recorded in the owning
module's Dependency Set iff the target is absent (null) or the resolved
target is not defined in any module of the compiled set (`IsInClassPath`);
when the target is internal to the compiled set the Dependency Set is left
unchanged. -/
theorem resolution_recorded_iff (dex : DexFile) (d : DexFileDeps)
    (t fi mi : Nat) (k : Option RClass) (f m : Option RMember) :
    (IsInClassPath k = true ↔ k = none ∨ ∃ c, k = some c ∧ c.definedIn = none) ∧
    (IsInClassPath k = true →
      (t, GetAccessFlags (k.map RClass.accessFlags)) ∈ (AddClassResolution t k d).classes_ ∧
      ∀ r ∈ d.classes_, r ∈ (AddClassResolution t k d).classes_) ∧
    (IsInClassPath k = false → AddClassResolution t k d = d) ∧
    (∀ r ∈ (AddClassResolution t k d).classes_,
      r = (t, GetAccessFlags (k.map RClass.accessFlags)) ∨ r ∈ d.classes_) ∧
    (IsInClassPath (f.map RMember.declaringClass) = true →
      (fi, GetAccessFlags (f.map RMember.accessFlags),
        (GetDeclaringClassStringId dex f d.strings_).1) ∈ (AddFieldResolution dex fi f d).fields_) ∧
    (IsInClassPath (f.map RMember.declaringClass) = false →
      AddFieldResolution dex fi f d = d) ∧
    (IsInClassPath (m.map RMember.declaringClass) = true →
      (mi, GetAccessFlags (m.map RMember.accessFlags),
        (GetDeclaringClassStringId dex m d.strings_).1) ∈ (AddMethodResolution dex mi m d).methods_) ∧
    (IsInClassPath (m.map RMember.declaringClass) = false →
      AddMethodResolution dex mi m d = d) := by
  refine ⟨?_, ?_, ?_, ?_, ?_, ?_, ?_, ?_⟩
  · cases k with
    | none => simp [IsInClassPath]
    | some c =>
      simp only [IsInClassPath, Option.isNone_iff_eq_none, decide_eq_true_eq]
      constructor
      · intro h
        exact Or.inr ⟨c, rfl, h⟩
      · intro h
        rcases h with h | ⟨c', hc', hd⟩
        · cases h
        · cases hc'
          exact hd
  · intro h
    unfold AddClassResolution
    rw [if_pos h]
    exact ⟨mem_insertOrdered_self _ _ _, fun r hr => mem_insertOrdered_of_mem _ _ _ _ hr⟩
  · intro h
    unfold AddClassResolution
    rw [if_neg (by simp [h])]
  · intro r hr
    unfold AddClassResolution at hr
    by_cases h : IsInClassPath k
    · rw [if_pos h] at hr
      exact (mem_insertOrdered _ _ _ _).mp hr
    · rw [if_neg h] at hr
      exact Or.inr hr
  · intro h
    unfold AddFieldResolution
    rw [if_pos h]
    exact mem_insertOrdered_self _ _ _
  · intro h
    unfold AddFieldResolution
    rw [if_neg (by simp [h])]
  · intro h
    unfold AddMethodResolution
    rw [if_pos h]
    exact mem_insertOrdered_self _ _ _
  · intro h
    unfold AddMethodResolution
    rw [if_neg (by simp [h])]

theorem resolution_recorded_iff_witness :
    ((0, GetAccessFlags ((some ⟨[76], 33, none⟩ : Option RClass).map RClass.accessFlags)) ∈
      (AddClassResolution 0 (some ⟨[76], 33, none⟩) (DexFileDeps.init 1)).classes_) ∧
    (AddClassResolution 0 (some ⟨[76], 33, some 0⟩) (DexFileDeps.init 1) =
      DexFileDeps.init 1) :=
  ⟨((resolution_recorded_iff ⟨[], 1⟩ (DexFileDeps.init 1) 0 0 0 (some ⟨[76], 33, none⟩)
      none none).2.1 (by decide)).1,
    (resolution_recorded_iff ⟨[], 1⟩ (DexFileDeps.init 1) 0 0 0 (some ⟨[76], 33, some 0⟩)
      none none).2.2.1 (by decide)⟩

/-- C6: an assignability outcome `b` between `destination` and `source` is
recorded iff at least one endpoint is a classpath entity; the pair of
interned descriptor ids goes into `assignable_types_` when `b` is true and
into `unassignable_types_` when `b` is false, leaving the other set
unchanged; and the strictness flag has no effect on the recorded content. -/
theorem assignability_recorded_iff (dex : DexFile) (d : DexFileDeps)
    (dst src : RClass) (s1 s2 b : Bool) :
    (AddAssignability dex dst src s1 b d = AddAssignability dex dst src s2 b d) ∧
    ((IsInClassPath (some dst) || IsInClassPath (some src)) = false →
      AddAssignability dex dst src s1 b d = d) ∧
    ((IsInClassPath (some dst) || IsInClassPath (some src)) = true →
      (b = true →
        ((GetIdFromString dex dst.descriptor d.strings_).1,
          (GetIdFromString dex src.descriptor
            (GetIdFromString dex dst.descriptor d.strings_).2).1) ∈
          (AddAssignability dex dst src s1 b d).assignable_types_ ∧
        (AddAssignability dex dst src s1 b d).unassignable_types_ =
          d.unassignable_types_) ∧
      (b = false →
        ((GetIdFromString dex dst.descriptor d.strings_).1,
          (GetIdFromString dex src.descriptor
            (GetIdFromString dex dst.descriptor d.strings_).2).1) ∈
          (AddAssignability dex dst src s1 b d).unassignable_types_ ∧
        (AddAssignability dex dst src s1 b d).assignable_types_ =
          d.assignable_types_)) := by
  refine ⟨rfl, ?_, ?_⟩
  · intro h
    unfold AddAssignability
    rw [if_neg (by simp [h])]
  · intro h
    constructor
    · intro hb
      subst hb
      unfold AddAssignability
      rw [if_pos h, if_pos rfl]
      exact ⟨mem_insertOrdered_self _ _ _, rfl⟩
    · intro hb
      subst hb
      unfold AddAssignability
      rw [if_pos h]
      exact ⟨mem_insertOrdered_self _ _ _, rfl⟩

theorem assignability_recorded_iff_witness :
    ((0, 1) ∈ (AddAssignability ⟨[], 0⟩ ⟨[68], 0, none⟩ ⟨[83], 0, some 0⟩ true true
      (DexFileDeps.init 0)).assignable_types_) ∧
    (AddAssignability ⟨[], 0⟩ ⟨[68], 0, some 0⟩ ⟨[83], 0, some 0⟩ true false
      (DexFileDeps.init 0) = DexFileDeps.init 0) :=
  ⟨((assignability_recorded_iff ⟨[], 0⟩ (DexFileDeps.init 0) ⟨[68], 0, none⟩
      ⟨[83], 0, some 0⟩ true false true).2.2 (by decide)).1 rfl |>.1,
    (assignability_recorded_iff ⟨[], 0⟩ (DexFileDeps.init 0) ⟨[68], 0, some 0⟩
      ⟨[83], 0, some 0⟩ true false false).2.1 (by decide)⟩

/-- C9: `GetIdFromString` returns the module's native string id when the
string is in the module's own table, and otherwise an extra-string id equal
to the native string count plus the string's index in the extra-string
sequence, appending the string when absent; the pool is append-only and
existing ids keep their meaning; and `GetStringFromId` applied to the
returned id yields the string back. -/
theorem getIdFromString_spec (dex : DexFile) (s : Str) (pool : List Str) :
    (∀ i, lookupIdx s dex.strings = some i → GetIdFromString dex s pool = (i, pool)) ∧
    (lookupIdx s dex.strings = none →
      (∃ j, lookupIdx s (GetIdFromString dex s pool).2 = some j ∧
        (GetIdFromString dex s pool).1 = dex.strings.length + j) ∧
      (∃ ext, (GetIdFromString dex s pool).2 = pool ++ ext)) ∧
    (∀ id, id < dex.strings.length + pool.length →
      GetStringFromId dex (GetIdFromString dex s pool).2 id =
        GetStringFromId dex pool id) ∧
    GetStringFromId dex (GetIdFromString dex s pool).2 (GetIdFromString dex s pool).1 = s := by
  refine ⟨?_, ?_, ?_, getStringFromId_getIdFromString dex s pool⟩
  · intro i hi
    unfold GetIdFromString
    rw [hi]
  · intro hnone
    constructor
    · unfold GetIdFromString
      rw [hnone]
      cases hp : lookupIdx s pool with
      | some j =>
        refine ⟨j, ?_, rfl⟩
        simp only [hp]
      | none =>
        refine ⟨pool.length, ?_, rfl⟩
        simp only
        exact lookupIdx_append_self s pool ((lookupIdx_eq_none_iff s pool).mp hp)
    · exact getIdFromString_pool_extends dex s pool
  · intro id hid
    obtain ⟨ext, hext⟩ := getIdFromString_pool_extends dex s pool
    rw [hext]
    exact getStringFromId_extend dex pool ext id hid

theorem getIdFromString_spec_witness :
    (GetIdFromString ⟨[[76]], 1⟩ [76] [] = (0, [])) ∧
    (GetIdFromString ⟨[[76]], 1⟩ [88] [] = (1, [[88]])) ∧
    (GetStringFromId ⟨[[76]], 1⟩ [[88]] 1 = [88]) :=
  ⟨(getIdFromString_spec ⟨[[76]], 1⟩ [76] []).1 0 (by decide),
    by decide,
    by
      have h := (getIdFromString_spec ⟨[[76]], 1⟩ [88] []).2.2.2
      revert h
      decide⟩

/-- C10 counterexample: a successfully resolved field whose low 16 modifier
bits are all set is NOT recorded identically to an unresolved field — the
access-flags component equals the sentinel in both records, but the
declaring-class string id differs (the live declaring class's interned
descriptor id versus the sentinel), so consumers of the raw record (such as
the encoder) can distinguish the two. -/
theorem resolved_sentinel_field_counterexample :
    AddFieldResolution ⟨[[76]], 1⟩ 0 (some ⟨65535, ⟨[76], 0, none⟩⟩)
      (DexFileDeps.init 1) ≠
    AddFieldResolution ⟨[[76]], 1⟩ 0 none (DexFileDeps.init 1) := by
  decide

/-- C10 (amended): for every class/field/method resolution record,
`IsResolved()` is true iff the stored 16-bit access flags differ from the
all-bits-set sentinel; `GetAccessFlags` keeps only the bottom 16 bits of a
live target's modifier word, so a resolved target whose low 16 modifier
bits are all set stores the sentinel in its access-flags component and
`IsResolved()` reports it as unresolved; for CLASS resolutions the whole
record coincides with the unresolved record, while for field/method
resolutions only the access-flags component does (the declaring-class id
still reflects the live target, as the counterexample shows). -/
theorem isResolved_sentinel_spec (r2 : ClassResolution) (rf : FieldResolution)
    (rm : MethodResolution) (dex : DexFile) (d : DexFileDeps) (t fi : Nat)
    (c : RClass) (f : RMember)
    (hc : c.accessFlags % 65536 = kUnresolvedMarker) (hcd : c.definedIn = none)
    (hf : f.accessFlags % 65536 = kUnresolvedMarker) :
    (classIsResolved r2 = true ↔ r2.2 ≠ kUnresolvedMarker) ∧
    (fieldIsResolved rf = true ↔ rf.2.1 ≠ kUnresolvedMarker) ∧
    (methodIsResolved rm = true ↔ rm.2.1 ≠ kUnresolvedMarker) ∧
    GetAccessFlags (some c.accessFlags) = GetAccessFlags none ∧
    AddClassResolution t (some c) d = AddClassResolution t none d ∧
    (∀ declId : Nat, fieldIsResolved (fi, GetAccessFlags (some f.accessFlags), declId) = false) := by
  refine ⟨by simp [classIsResolved], by simp [fieldIsResolved], by simp [methodIsResolved],
    ?_, ?_, ?_⟩
  · simp only [GetAccessFlags, hc]
  · unfold AddClassResolution
    have h1 : IsInClassPath (some c) = true := by
      simp [IsInClassPath, hcd]
    have h2 : IsInClassPath (none : Option RClass) = true := rfl
    rw [if_pos h1, if_pos h2]
    simp only [Option.map_some', Option.map_none', GetAccessFlags, hc]
  · intro declId
    simp only [fieldIsResolved, GetAccessFlags, hf]
    simp [kUnresolvedMarker]

theorem isResolved_sentinel_spec_witness :
    (classIsResolved (3, 65535) = false) ∧
    (AddClassResolution 0 (some ⟨[76], 65535, none⟩) (DexFileDeps.init 1) =
      AddClassResolution 0 none (DexFileDeps.init 1)) ∧
    (fieldIsResolved (0, GetAccessFlags (some 65535), 0) = false) := by
  have h := isResolved_sentinel_spec (3, 65535) (0, 0, 0) (0, 0, 0) ⟨[], 0⟩
    (DexFileDeps.init 1) 0 0 ⟨[76], 65535, none⟩ ⟨65535, ⟨[76], 0, none⟩⟩
    (by decide) rfl (by decide)
  refine ⟨?_, h.2.2.2.2.1, h.2.2.2.2.2 0⟩
  have h1 := h.1
  revert h1
  decide

/-- C1: decoding the bytes produced by encoding a populated aggregate, with
the same ordered module list on both sides, yields an aggregate
structurally equal to the original: equal extra-string sequences, equal
assignable/unassignable/class/field/method sets, and equal verified and
redefined bit vectors, for every module. -/
theorem parse_encode_roundtrip (M : List DexFile) (X : VerifierDeps)
    (hwf : wfDeps M X.dex_deps_ = true) :
    ∃ Y, ParseStoredData M (Encode M X) = some Y ∧ X.Equals Y := by
  refine ⟨⟨X.dex_deps_, false⟩, ?_, rfl, fun i _ => DexFileDeps.equals_refl _⟩
  unfold ParseStoredData Encode
  have h := decodeAll_encode M X.dex_deps_ hwf []
  rw [List.append_nil] at h
  rw [h]

theorem parse_encode_roundtrip_witness :
    ∃ Y, ParseStoredData [⟨[[76]], 2⟩]
        (Encode [⟨[[76]], 2⟩]
          ⟨[⟨[[88]], [(0, 1)], [(1, 0)], [(0, 7)], [(0, 65535, 65535)], [],
            [true, false], [false, false]⟩], true⟩) = some Y ∧
      VerifierDeps.Equals
        ⟨[⟨[[88]], [(0, 1)], [(1, 0)], [(0, 7)], [(0, 65535, 65535)], [],
          [true, false], [false, false]⟩], true⟩ Y :=
  parse_encode_roundtrip [⟨[[76]], 2⟩]
    ⟨[⟨[[88]], [(0, 1)], [(1, 0)], [(0, 7)], [(0, 65535, 65535)], [],
      [true, false], [false, false]⟩], true⟩ (by decide)

/-- Decoding against a module list whose class-definition count first
disagrees at position `j` fails. -/
theorem decodeAll_len_mismatch (M' : List DexFile) :
    ∀ (M : List DexFile) (ds : List DexFileDeps), wfDeps M ds = true →
    ∀ j, j < M.length → M'.length = M.length →
    (∀ k, k < j → (M'.getD k defaultDexFile).numClassDefs =
      (M.getD k defaultDexFile).numClassDefs) →
    (M'.getD j defaultDexFile).numClassDefs ≠
      (M.getD j defaultDexFile).numClassDefs →
    ∀ rest, decodeAll M' (encodeSeq encodeDexFileDeps ds ++ rest) = none := by
  induction M' with
  | nil =>
    intro M ds _ j hj hlen _ _ _
    rw [List.length_nil] at hlen
    omega
  | cons dex' M'' ih =>
    intro M ds hwf j hj hlen hpre hne rest
    cases M with
    | nil => simp at hj
    | cons dex Mt =>
      cases ds with
      | nil => simp [wfDeps] at hwf
      | cons d dst =>
        simp only [wfDeps, Bool.and_eq_true, beq_iff_eq] at hwf
        obtain ⟨⟨hv, hr⟩, hwf'⟩ := hwf
        cases j with
        | zero =>
          have hne0 : dex'.numClassDefs ≠ dex.numClassDefs := by
            simpa using hne
          have hmis := decodeDexFileDeps_len_mismatch d dex'.numClassDefs
            (by rw [hv]; exact fun hc => hne0 hc.symm) (encodeSeq encodeDexFileDeps dst ++ rest)
          simp only [encodeSeq, List.append_assoc, decodeAll, hmis]
        | succ k =>
          have h0 : dex'.numClassDefs = dex.numClassDefs := by
            simpa using hpre 0 (Nat.succ_pos k)
          have hok := decodeDexFileDeps_encodeDexFileDeps d dex'.numClassDefs
            (by rw [hv, h0]) (by rw [hr, h0]) (encodeSeq encodeDexFileDeps dst ++ rest)
          simp only [encodeSeq, List.append_assoc, decodeAll, hok]
          have hpre' : ∀ k', k' < k → (M''.getD k' defaultDexFile).numClassDefs =
              (Mt.getD k' defaultDexFile).numClassDefs := by
            intro k' hk'
            simpa using hpre (k' + 1) (by omega)
          have hne' : (M''.getD k defaultDexFile).numClassDefs ≠
              (Mt.getD k defaultDexFile).numClassDefs := by
            simpa using hne
          rw [ih Mt dst hwf' k (by simpa using hj) (by simpa using hlen) hpre' hne' rest]

/-- C4: decoding fails, yielding no usable aggregate (the `Option` result
carries no partial state), on each of the malformed-data conditions: trailing
unconsumed bytes after the last module's record, truncated input (any strict
prefix of a valid encoding), and a stored bit-vector length disagreeing with
the corresponding module's class-definition count. -/
theorem parse_failure_modes (M : List DexFile) (X : VerifierDeps)
    (hwf : wfDeps M X.dex_deps_ = true) :
    (∀ extra, extra ≠ [] → ParseStoredData M (Encode M X ++ extra) = none) ∧
    (∀ p q, p ++ q = Encode M X → q ≠ [] → ParseStoredData M p = none) ∧
    (∀ M' j, M'.length = M.length → j < M.length →
      (∀ k, k < j → (M'.getD k defaultDexFile).numClassDefs =
        (M.getD k defaultDexFile).numClassDefs) →
      (M'.getD j defaultDexFile).numClassDefs ≠
        (M.getD j defaultDexFile).numClassDefs →
      ParseStoredData M' (Encode M X) = none) := by
  refine ⟨?_, ?_, ?_⟩
  · intro extra hx
    unfold ParseStoredData Encode
    rw [decodeAll_encode M X.dex_deps_ hwf extra]
    cases extra with
    | nil => exact absurd rfl hx
    | cons a t => rfl
  · intro p q hpq hq
    unfold ParseStoredData
    cases hp : decodeAll M p with
    | none => rfl
    | some v =>
      obtain ⟨ds, r⟩ := v
      cases r with
      | cons a t => rfl
      | nil =>
        exfalso
        obtain ⟨c, hc, hinv⟩ := parserOk_decodeAll M p ds [] hp
        rw [List.append_nil] at hc
        subst hc
        have h1 := hinv q
        rw [hpq] at h1
        have h2 := decodeAll_encode M X.dex_deps_ hwf []
        rw [List.append_nil] at h2
        rw [show Encode M X = encodeSeq encodeDexFileDeps X.dex_deps_ from rfl] at h1
        rw [h2] at h1
        simp only [Option.some.injEq, Prod.mk.injEq] at h1
        exact hq h1.2.symm
  · intro M' j hlen hj hpre hne
    unfold ParseStoredData Encode
    have h := decodeAll_len_mismatch M' M X.dex_deps_ hwf j hj hlen hpre hne []
    rw [List.append_nil] at h
    rw [h]

/-! ### Validation-stability machinery (C2)

A record is *environment-consistent* when re-deriving it against the live
environment yields exactly what was recorded.  The recorder only ever
creates environment-consistent records when the outcomes it is fed come
from that same environment, and pool growth never invalidates them. -/

/-- The recorded class resolution matches what the environment resolves. -/
def ClassOk (env : LiveEnv) (i : Nat) (r : ClassResolution) : Prop :=
  match env.resolveClass i r.1 with
  | none => r.2 = kUnresolvedMarker
  | some c => r.2 = c.accessFlags % 65536 ∧ c.accessFlags % 65536 ≠ kUnresolvedMarker

/-- The recorded field resolution matches what the environment resolves,
with a valid declaring-class string id. -/
def FieldOk (env : LiveEnv) (dex : DexFile) (pool : List Str) (i : Nat)
    (r : FieldResolution) : Prop :=
  match env.resolveField i r.1 with
  | none => r.2.1 = kUnresolvedMarker
  | some f => r.2.1 = f.accessFlags % 65536 ∧ f.accessFlags % 65536 ≠ kUnresolvedMarker ∧
      r.2.2 < dex.strings.length + pool.length ∧
      GetStringFromId dex pool r.2.2 = f.declaringClass.descriptor

/-- The recorded method resolution matches what the environment resolves. -/
def MethodOk (env : LiveEnv) (dex : DexFile) (pool : List Str) (i : Nat)
    (r : MethodResolution) : Prop :=
  match env.resolveMethod i r.1 with
  | none => r.2.1 = kUnresolvedMarker
  | some m => r.2.1 = m.accessFlags % 65536 ∧ m.accessFlags % 65536 ≠ kUnresolvedMarker ∧
      r.2.2 < dex.strings.length + pool.length ∧
      GetStringFromId dex pool r.2.2 = m.declaringClass.descriptor

/-- The recorded assignability pair denotes valid ids whose descriptors the
environment relates exactly as recorded. -/
def PairOk (env : LiveEnv) (dex : DexFile) (pool : List Str) (b : Bool)
    (p : TypeAssignability) : Prop :=
  p.1 < dex.strings.length + pool.length ∧ p.2 < dex.strings.length + pool.length ∧
  env.assignable (GetStringFromId dex pool p.1) (GetStringFromId dex pool p.2) = b

/-- All records of one module's Dependency Set are environment-consistent. -/
def ModInv (env : LiveEnv) (dex : DexFile) (i : Nat) (d : DexFileDeps) : Prop :=
  (∀ r ∈ d.classes_, ClassOk env i r) ∧
  (∀ r ∈ d.fields_, FieldOk env dex d.strings_ i r) ∧
  (∀ r ∈ d.methods_, MethodOk env dex d.strings_ i r) ∧
  (∀ p ∈ d.assignable_types_, PairOk env dex d.strings_ true p) ∧
  (∀ p ∈ d.unassignable_types_, PairOk env dex d.strings_ false p)

theorem fieldOk_extend {env : LiveEnv} {dex : DexFile} {pool : List Str}
    (ext : List Str) {i : Nat} {r : FieldResolution}
    (h : FieldOk env dex pool i r) : FieldOk env dex (pool ++ ext) i r := by
  unfold FieldOk at *
  cases henv : env.resolveField i r.1 with
  | none => rw [henv] at h; exact h
  | some f =>
    rw [henv] at h
    obtain ⟨h1, h2, h3, h4⟩ := h
    refine ⟨h1, h2, by simp only [List.length_append]; omega, ?_⟩
    rw [getStringFromId_extend dex pool ext r.2.2 h3]
    exact h4

theorem methodOk_extend {env : LiveEnv} {dex : DexFile} {pool : List Str}
    (ext : List Str) {i : Nat} {r : MethodResolution}
    (h : MethodOk env dex pool i r) : MethodOk env dex (pool ++ ext) i r := by
  unfold MethodOk at *
  cases henv : env.resolveMethod i r.1 with
  | none => rw [henv] at h; exact h
  | some m =>
    rw [henv] at h
    obtain ⟨h1, h2, h3, h4⟩ := h
    refine ⟨h1, h2, by simp only [List.length_append]; omega, ?_⟩
    rw [getStringFromId_extend dex pool ext r.2.2 h3]
    exact h4

theorem pairOk_extend {env : LiveEnv} {dex : DexFile} {pool : List Str}
    (ext : List Str) {b : Bool} {p : TypeAssignability}
    (h : PairOk env dex pool b p) : PairOk env dex (pool ++ ext) b p := by
  obtain ⟨h1, h2, h3⟩ := h
  refine ⟨by simp only [List.length_append]; omega,
    by simp only [List.length_append]; omega, ?_⟩
  rw [getStringFromId_extend dex pool ext p.1 h1, getStringFromId_extend dex pool ext p.2 h2]
  exact h3

theorem modInv_addClassResolution {env : LiveEnv} {dex : DexFile} {i t : Nat}
    {klass : Option RClass} {d : DexFileDeps} (h : ModInv env dex i d)
    (hk : env.resolveClass i t = klass)
    (hs : ∀ c, klass = some c → c.accessFlags % 65536 ≠ kUnresolvedMarker) :
    ModInv env dex i (AddClassResolution t klass d) := by
  unfold AddClassResolution
  split
  · obtain ⟨hc, hf, hm, ha, hu⟩ := h
    refine ⟨?_, hf, hm, ha, hu⟩
    intro r hr
    rcases (mem_insertOrdered _ _ _ _).mp hr with hr | hr
    · subst hr
      unfold ClassOk
      simp only [hk]
      cases klass with
      | none => rfl
      | some c =>
        simp only [Option.map_some', GetAccessFlags]
        exact ⟨by trivial, hs c rfl⟩
    · exact hc r hr
  · exact h

theorem modInv_addFieldResolution {env : LiveEnv} {dex : DexFile} {i fi : Nat}
    {field : Option RMember} {d : DexFileDeps} (h : ModInv env dex i d)
    (hk : env.resolveField i fi = field)
    (hs : ∀ m, field = some m → m.accessFlags % 65536 ≠ kUnresolvedMarker) :
    ModInv env dex i (AddFieldResolution dex fi field d) := by
  unfold AddFieldResolution
  split
  · obtain ⟨hc, hf, hm, ha, hu⟩ := h
    cases field with
    | none =>
      refine ⟨hc, ?_, hm, ha, hu⟩
      intro r hr
      rcases (mem_insertOrdered _ _ _ _).mp hr with hr | hr
      · subst hr
        unfold FieldOk
        simp only [hk]
        rfl
      · exact hf r hr
    | some m =>
      obtain ⟨ext, hext⟩ := getIdFromString_pool_extends dex m.declaringClass.descriptor d.strings_
      simp only [GetDeclaringClassStringId]
      refine ⟨hc, ?_, ?_, ?_, ?_⟩
      · intro r hr
        rcases (mem_insertOrdered _ _ _ _).mp hr with hr | hr
        · subst hr
          unfold FieldOk
          simp only [hk, Option.map_some', GetAccessFlags]
          exact ⟨by trivial, hs m rfl, getIdFromString_id_lt dex m.declaringClass.descriptor d.strings_,
            getStringFromId_getIdFromString dex _ _⟩
        · rw [hext]
          exact fieldOk_extend ext (hf r hr)
      · intro r hr
        rw [hext]
        exact methodOk_extend ext (hm r hr)
      · intro p hp
        rw [hext]
        exact pairOk_extend ext (ha p hp)
      · intro p hp
        rw [hext]
        exact pairOk_extend ext (hu p hp)
  · exact h

theorem modInv_addMethodResolution {env : LiveEnv} {dex : DexFile} {i mi : Nat}
    {method : Option RMember} {d : DexFileDeps} (h : ModInv env dex i d)
    (hk : env.resolveMethod i mi = method)
    (hs : ∀ m, method = some m → m.accessFlags % 65536 ≠ kUnresolvedMarker) :
    ModInv env dex i (AddMethodResolution dex mi method d) := by
  unfold AddMethodResolution
  split
  · obtain ⟨hc, hf, hm, ha, hu⟩ := h
    cases method with
    | none =>
      refine ⟨hc, hf, ?_, ha, hu⟩
      intro r hr
      rcases (mem_insertOrdered _ _ _ _).mp hr with hr | hr
      · subst hr
        unfold MethodOk
        simp only [hk]
        rfl
      · exact hm r hr
    | some m =>
      obtain ⟨ext, hext⟩ := getIdFromString_pool_extends dex m.declaringClass.descriptor d.strings_
      simp only [GetDeclaringClassStringId]
      refine ⟨hc, ?_, ?_, ?_, ?_⟩
      · intro r hr
        rw [hext]
        exact fieldOk_extend ext (hf r hr)
      · intro r hr
        rcases (mem_insertOrdered _ _ _ _).mp hr with hr | hr
        · subst hr
          unfold MethodOk
          simp only [hk, Option.map_some', GetAccessFlags]
          exact ⟨by trivial, hs m rfl, getIdFromString_id_lt dex m.declaringClass.descriptor d.strings_,
            getStringFromId_getIdFromString dex _ _⟩
        · rw [hext]
          exact methodOk_extend ext (hm r hr)
      · intro p hp
        rw [hext]
        exact pairOk_extend ext (ha p hp)
      · intro p hp
        rw [hext]
        exact pairOk_extend ext (hu p hp)
  · exact h

theorem modInv_addAssignability {env : LiveEnv} {dex : DexFile} {i : Nat}
    {dst src : RClass} {st b : Bool} {d : DexFileDeps} (h : ModInv env dex i d)
    (hb : env.assignable dst.descriptor src.descriptor = b) :
    ModInv env dex i (AddAssignability dex dst src st b d) := by
  obtain ⟨hc, hf, hm, ha, hu⟩ := h
  obtain ⟨e1, he1⟩ := getIdFromString_pool_extends dex dst.descriptor d.strings_
  obtain ⟨e2, he2⟩ :=
    getIdFromString_pool_extends dex src.descriptor (GetIdFromString dex dst.descriptor d.strings_).2
  have hdstlt := getIdFromString_id_lt dex dst.descriptor d.strings_
  have hsrclt :=
    getIdFromString_id_lt dex src.descriptor (GetIdFromString dex dst.descriptor d.strings_).2
  have hdststr := getStringFromId_getIdFromString dex dst.descriptor d.strings_
  have hsrcstr :=
    getStringFromId_getIdFromString dex src.descriptor (GetIdFromString dex dst.descriptor d.strings_).2
  have hfin : (GetIdFromString dex src.descriptor
      (GetIdFromString dex dst.descriptor d.strings_).2).2 = d.strings_ ++ (e1 ++ e2) := by
    rw [he2, he1, List.append_assoc]
  have hnewpair : PairOk env dex
      (GetIdFromString dex src.descriptor (GetIdFromString dex dst.descriptor d.strings_).2).2 b
      ((GetIdFromString dex dst.descriptor d.strings_).1,
        (GetIdFromString dex src.descriptor (GetIdFromString dex dst.descriptor d.strings_).2).1) := by
    refine ⟨?_, hsrclt, ?_⟩
    · rw [he2]
      simp only [List.length_append]
      omega
    · have hds : GetStringFromId dex
          (GetIdFromString dex src.descriptor (GetIdFromString dex dst.descriptor d.strings_).2).2
          (GetIdFromString dex dst.descriptor d.strings_).1 = dst.descriptor := by
        rw [he2, getStringFromId_extend dex _ e2 _ hdstlt]
        exact hdststr
      rw [hds, hsrcstr]
      exact hb
  unfold AddAssignability
  split
  · cases b with
    | true =>
      rw [if_pos rfl]
      refine ⟨hc, ?_, ?_, ?_, ?_⟩
      · intro r hr
        rw [hfin]
        exact fieldOk_extend (e1 ++ e2) (hf r hr)
      · intro r hr
        rw [hfin]
        exact methodOk_extend (e1 ++ e2) (hm r hr)
      · intro p hp
        rcases (mem_insertOrdered _ _ _ _).mp hp with hp | hp
        · subst hp
          exact hnewpair
        · rw [hfin]
          exact pairOk_extend (e1 ++ e2) (ha p hp)
      · intro p hp
        rw [hfin]
        exact pairOk_extend (e1 ++ e2) (hu p hp)
    | false =>
      rw [if_neg (by simp)]
      refine ⟨hc, ?_, ?_, ?_, ?_⟩
      · intro r hr
        rw [hfin]
        exact fieldOk_extend (e1 ++ e2) (hf r hr)
      · intro r hr
        rw [hfin]
        exact methodOk_extend (e1 ++ e2) (hm r hr)
      · intro p hp
        rw [hfin]
        exact pairOk_extend (e1 ++ e2) (ha p hp)
      · intro p hp
        rcases (mem_insertOrdered _ _ _ _).mp hp with hp | hp
        · subst hp
          exact hnewpair
        · rw [hfin]
          exact pairOk_extend (e1 ++ e2) (hu p hp)
  · exact ⟨hc, hf, hm, ha, hu⟩

theorem modInv_recordClassVerified {env : LiveEnv} {dex : DexFile} {i : Nat}
    {d : DexFileDeps} (h : ModInv env dex i d) (c : Nat) :
    ModInv env dex i (RecordClassVerified c d) := h

theorem modInv_recordClassRedefinition {env : LiveEnv} {dex : DexFile} {i : Nat}
    {d : DexFileDeps} (h : ModInv env dex i d) (c : Nat) :
    ModInv env dex i (RecordClassRedefinition c d) := h

/-- Out-of-range modification is a no-op. -/
theorem modifyAt_of_le {α : Type} (n : Nat) (f : α → α) (l : List α)
    (h : l.length ≤ n) : modifyAt n f l = l := by
  induction l generalizing n with
  | nil => rw [modifyAt_nil]
  | cons a t ih =>
    cases n with
    | zero => simp at h
    | succ n =>
      rw [modifyAt_cons_succ]
      rw [ih n (by simpa using h)]

/-- Modelled from the spec: which recorder invocations are *consistent with*
a live environment — every reported outcome is exactly what the environment
yields, and (for the amended validation-stability statement) no resolved
entity carries the all-ones 16-bit flags sentinel. -/
def eventOk (env : LiveEnv) : REvent → Prop
  | .classRes i t k => env.resolveClass i t = k ∧
      ∀ c, k = some c → c.accessFlags % 65536 ≠ kUnresolvedMarker
  | .fieldRes i fi f => env.resolveField i fi = f ∧
      ∀ m, f = some m → m.accessFlags % 65536 ≠ kUnresolvedMarker
  | .methodRes i mi m => env.resolveMethod i mi = m ∧
      ∀ x, m = some x → x.accessFlags % 65536 ≠ kUnresolvedMarker
  | .assign _ dst src _ b => env.assignable dst.descriptor src.descriptor = b
  | .verified _ _ => True
  | .redefined _ _ => True

/-- A whole recording pass consistent with an unchanged environment: every
event reflects the environment, and every class recorded verified is either
not eclipsed or also recorded redefined (the driver's contract). -/
def Consistent (env : LiveEnv) (events : List REvent) : Prop :=
  (∀ e ∈ events, eventOk env e) ∧
  ∀ i c, REvent.verified i c ∈ events →
    env.eclipsed i c = false ∨ REvent.redefined i c ∈ events

/-- Aggregate-level environment-consistency invariant. -/
def AggInv (env : LiveEnv) (M : List DexFile) (D : List DexFileDeps) : Prop :=
  D.length = M.length ∧
  ∀ i, i < M.length →
    ModInv env (M.getD i defaultDexFile) i (D.getD i (DexFileDeps.init 0))

theorem aggInv_modify {env : LiveEnv} {M : List DexFile} {D : List DexFileDeps}
    (hagg : AggInv env M D) (j : Nat) (f : DexFileDeps → DexFileDeps)
    (hf : ∀ d, ModInv env (M.getD j defaultDexFile) j d →
      ModInv env (M.getD j defaultDexFile) j (f d)) :
    AggInv env M (modifyAt j f D) := by
  obtain ⟨hlen, hmod⟩ := hagg
  refine ⟨by rw [length_modifyAt]; exact hlen, ?_⟩
  intro i hi
  by_cases hij : j = i
  · subst hij
    by_cases hjl : j < D.length
    · rw [getD_modifyAt_self j f D _ hjl]
      exact hf _ (hmod j hi)
    · rw [modifyAt_of_le j f D (by omega)]
      exact hmod j hi
  · rw [getD_modifyAt_ne j i f D _ hij]
    exact hmod i hi

theorem aggInv_applyEvent {env : LiveEnv} {M : List DexFile} {D : List DexFileDeps}
    {e : REvent} (hagg : AggInv env M D) (he : eventOk env e) :
    AggInv env M (applyEvent M D e) := by
  cases e with
  | classRes i t k =>
    exact aggInv_modify hagg i _ (fun d hd => modInv_addClassResolution hd he.1 he.2)
  | fieldRes i fi f =>
    exact aggInv_modify hagg i _ (fun d hd => modInv_addFieldResolution hd he.1 he.2)
  | methodRes i mi m =>
    exact aggInv_modify hagg i _ (fun d hd => modInv_addMethodResolution hd he.1 he.2)
  | assign i dst src st b =>
    exact aggInv_modify hagg i _ (fun d hd => modInv_addAssignability hd he)
  | verified i c =>
    exact aggInv_modify hagg i _ (fun d hd => modInv_recordClassVerified hd c)
  | redefined i c =>
    exact aggInv_modify hagg i _ (fun d hd => modInv_recordClassRedefinition hd c)

theorem initDeps_getD (M : List DexFile) (i : Nat) (hi : i < M.length) :
    (initDeps M).getD i (DexFileDeps.init 0) =
      DexFileDeps.init ((M.getD i defaultDexFile).numClassDefs) := by
  induction M generalizing i with
  | nil => simp at hi
  | cons dex Mt ih =>
    cases i with
    | zero => rfl
    | succ i =>
      simp only [initDeps, List.map_cons, List.getD_cons_succ]
      exact ih i (by simpa using hi)

theorem aggInv_init (env : LiveEnv) (M : List DexFile) : AggInv env M (initDeps M) := by
  refine ⟨by simp [initDeps], ?_⟩
  intro i hi
  rw [initDeps_getD M i hi]
  exact ⟨fun r hr => absurd hr (List.not_mem_nil r),
    fun r hr => absurd hr (List.not_mem_nil r),
    fun r hr => absurd hr (List.not_mem_nil r),
    fun p hp => absurd hp (List.not_mem_nil p),
    fun p hp => absurd hp (List.not_mem_nil p)⟩

theorem aggInv_foldl {env : LiveEnv} {M : List DexFile} :
    ∀ (evs : List REvent) (D : List DexFileDeps), AggInv env M D →
      (∀ e ∈ evs, eventOk env e) → AggInv env M (evs.foldl (applyEvent M) D) := by
  intro evs
  induction evs with
  | nil =>
    intro D h _
    exact h
  | cons e evs ih =>
    intro D h hok
    simp only [List.foldl_cons]
    exact ih _ (aggInv_applyEvent h (hok e (List.mem_cons_self e evs)))
      (fun e' he' => hok e' (List.mem_cons_of_mem e he'))

theorem aggInv_generate (env : LiveEnv) (M : List DexFile) (events : List REvent)
    (h : ∀ e ∈ events, eventOk env e) : AggInv env M (generate M events) :=
  aggInv_foldl events (initDeps M) (aggInv_init env M) h

/-! ### Bit-vector evolution under a recording pass -/

theorem getD_set_true (l : List Bool) (n m : Nat) :
    ((l.set n true).getD m false = true) ↔
      (l.getD m false = true ∨ (n = m ∧ m < l.length)) := by
  induction l generalizing n m with
  | nil => simp
  | cons a t ih =>
    cases n with
    | zero =>
      cases m with
      | zero => simp
      | succ m => simp
    | succ n =>
      cases m with
      | zero => simp
      | succ m =>
        simp only [List.set_cons_succ, List.getD_cons_succ, List.length_cons, ih]
        constructor
        · rintro (h | ⟨h1, h2⟩)
          · exact Or.inl h
          · exact Or.inr ⟨by omega, by omega⟩
        · rintro (h | ⟨h1, h2⟩)
          · exact Or.inl h
          · exact Or.inr ⟨by omega, by omega⟩

theorem getD_replicate_false (n c : Nat) :
    (List.replicate n false).getD c false = false := by
  induction n generalizing c with
  | zero => rfl
  | succ n ih =>
    cases c with
    | zero => rfl
    | succ c => simpa [List.replicate] using ih c

theorem getD_modifyAt_proj {α β : Type} (g : α → β) (f : α → α)
    (hf : ∀ a, g (f a) = g a) (j i : Nat) (D : List α) (d : α) :
    g ((modifyAt j f D).getD i d) = g (D.getD i d) := by
  by_cases hij : j = i
  · subst hij
    by_cases hl : j < D.length
    · rw [getD_modifyAt_self j f D d hl, hf]
    · rw [modifyAt_of_le j f D (by omega)]
  · rw [getD_modifyAt_ne j i f D d hij]

theorem addClassResolution_bits (t : Nat) (k : Option RClass) (d : DexFileDeps) :
    (AddClassResolution t k d).verified_classes_ = d.verified_classes_ ∧
    (AddClassResolution t k d).redefined_classes_ = d.redefined_classes_ := by
  unfold AddClassResolution
  split
  · exact ⟨rfl, rfl⟩
  · exact ⟨rfl, rfl⟩

theorem addFieldResolution_bits (dex : DexFile) (fi : Nat) (f : Option RMember)
    (d : DexFileDeps) :
    (AddFieldResolution dex fi f d).verified_classes_ = d.verified_classes_ ∧
    (AddFieldResolution dex fi f d).redefined_classes_ = d.redefined_classes_ := by
  unfold AddFieldResolution
  split
  · exact ⟨rfl, rfl⟩
  · exact ⟨rfl, rfl⟩

theorem addMethodResolution_bits (dex : DexFile) (mi : Nat) (m : Option RMember)
    (d : DexFileDeps) :
    (AddMethodResolution dex mi m d).verified_classes_ = d.verified_classes_ ∧
    (AddMethodResolution dex mi m d).redefined_classes_ = d.redefined_classes_ := by
  unfold AddMethodResolution
  split
  · exact ⟨rfl, rfl⟩
  · exact ⟨rfl, rfl⟩

theorem addAssignability_bits (dex : DexFile) (dst src : RClass) (st b : Bool)
    (d : DexFileDeps) :
    (AddAssignability dex dst src st b d).verified_classes_ = d.verified_classes_ ∧
    (AddAssignability dex dst src st b d).redefined_classes_ = d.redefined_classes_ := by
  unfold AddAssignability
  split
  · split
    · exact ⟨rfl, rfl⟩
    · exact ⟨rfl, rfl⟩
  · exact ⟨rfl, rfl⟩

theorem applyEvent_length (M : List DexFile) (D : List DexFileDeps) (e : REvent) :
    (applyEvent M D e).length = D.length := by
  cases e <;> simp [applyEvent, length_modifyAt]

theorem applyEvent_vlen (M : List DexFile) (D : List DexFileDeps) (e : REvent) (i : Nat) :
    ((applyEvent M D e).getD i (DexFileDeps.init 0)).verified_classes_.length =
      ((D.getD i (DexFileDeps.init 0)).verified_classes_).length := by
  cases e with
  | classRes j t k =>
    exact getD_modifyAt_proj (fun d => d.verified_classes_.length) (AddClassResolution t k)
      (fun a => by simp only [(addClassResolution_bits t k a).1]) j i D _
  | fieldRes j fi fl =>
    exact getD_modifyAt_proj (fun d => d.verified_classes_.length)
      (AddFieldResolution (M.getD j defaultDexFile) fi fl)
      (fun a => by simp only [(addFieldResolution_bits _ fi fl a).1]) j i D _
  | methodRes j mi m =>
    exact getD_modifyAt_proj (fun d => d.verified_classes_.length)
      (AddMethodResolution (M.getD j defaultDexFile) mi m)
      (fun a => by simp only [(addMethodResolution_bits _ mi m a).1]) j i D _
  | assign j dst src st b =>
    exact getD_modifyAt_proj (fun d => d.verified_classes_.length)
      (AddAssignability (M.getD j defaultDexFile) dst src st b)
      (fun a => by simp only [(addAssignability_bits _ dst src st b a).1]) j i D _
  | verified j c' =>
    exact getD_modifyAt_proj (fun d => d.verified_classes_.length) (RecordClassVerified c')
      (fun a => by simp [RecordClassVerified]) j i D _
  | redefined j c' =>
    exact getD_modifyAt_proj (fun d => d.verified_classes_.length) (RecordClassRedefinition c')
      (fun a => by simp [RecordClassRedefinition]) j i D _

theorem applyEvent_rlen (M : List DexFile) (D : List DexFileDeps) (e : REvent) (i : Nat) :
    ((applyEvent M D e).getD i (DexFileDeps.init 0)).redefined_classes_.length =
      ((D.getD i (DexFileDeps.init 0)).redefined_classes_).length := by
  cases e with
  | classRes j t k =>
    exact getD_modifyAt_proj (fun d => d.redefined_classes_.length) (AddClassResolution t k)
      (fun a => by simp only [(addClassResolution_bits t k a).2]) j i D _
  | fieldRes j fi fl =>
    exact getD_modifyAt_proj (fun d => d.redefined_classes_.length)
      (AddFieldResolution (M.getD j defaultDexFile) fi fl)
      (fun a => by simp only [(addFieldResolution_bits _ fi fl a).2]) j i D _
  | methodRes j mi m =>
    exact getD_modifyAt_proj (fun d => d.redefined_classes_.length)
      (AddMethodResolution (M.getD j defaultDexFile) mi m)
      (fun a => by simp only [(addMethodResolution_bits _ mi m a).2]) j i D _
  | assign j dst src st b =>
    exact getD_modifyAt_proj (fun d => d.redefined_classes_.length)
      (AddAssignability (M.getD j defaultDexFile) dst src st b)
      (fun a => by simp only [(addAssignability_bits _ dst src st b a).2]) j i D _
  | verified j c' =>
    exact getD_modifyAt_proj (fun d => d.redefined_classes_.length) (RecordClassVerified c')
      (fun a => by simp [RecordClassVerified]) j i D _
  | redefined j c' =>
    exact getD_modifyAt_proj (fun d => d.redefined_classes_.length) (RecordClassRedefinition c')
      (fun a => by simp [RecordClassRedefinition]) j i D _

theorem verifiedBit_applyEvent (M : List DexFile) (D : List DexFileDeps) (e : REvent)
    (i c : Nat) :
    (((applyEvent M D e).getD i (DexFileDeps.init 0)).verified_classes_.getD c false = true) ↔
      (((D.getD i (DexFileDeps.init 0)).verified_classes_.getD c false = true) ∨
        (e = REvent.verified i c ∧ i < D.length ∧
          c < ((D.getD i (DexFileDeps.init 0)).verified_classes_).length)) := by
  cases e with
  | classRes j t k =>
    simp only [applyEvent]
    rw [getD_modifyAt_proj (fun d => d.verified_classes_) _
      (fun a => (addClassResolution_bits t k a).1) j i D _]
    simp
  | fieldRes j fi f =>
    simp only [applyEvent]
    rw [getD_modifyAt_proj (fun d => d.verified_classes_) _
      (fun a => (addFieldResolution_bits _ fi f a).1) j i D _]
    simp
  | methodRes j mi m =>
    simp only [applyEvent]
    rw [getD_modifyAt_proj (fun d => d.verified_classes_) _
      (fun a => (addMethodResolution_bits _ mi m a).1) j i D _]
    simp
  | assign j dst src st b =>
    simp only [applyEvent]
    rw [getD_modifyAt_proj (fun d => d.verified_classes_) _
      (fun a => (addAssignability_bits _ dst src st b a).1) j i D _]
    simp
  | redefined j c' =>
    simp only [applyEvent]
    rw [getD_modifyAt_proj (fun d => d.verified_classes_) _
      (fun a => by simp [RecordClassRedefinition]) j i D _]
    simp
  | verified j c' =>
    simp only [applyEvent]
    by_cases hij : j = i
    · subst hij
      by_cases hl : j < D.length
      · rw [getD_modifyAt_self j _ D _ hl]
        unfold RecordClassVerified
        simp only
        rw [getD_set_true]
        simp only [REvent.verified.injEq]
        constructor
        · rintro (h | ⟨h1, h2⟩)
          · exact Or.inl h
          · exact Or.inr ⟨⟨trivial, h1⟩, hl, h2⟩
        · rintro (h | ⟨⟨_, h1⟩, _, h2⟩)
          · exact Or.inl h
          · exact Or.inr ⟨h1, h2⟩
      · rw [modifyAt_of_le j _ D (by omega)]
        simp only [REvent.verified.injEq]
        constructor
        · exact Or.inl
        · rintro (h | ⟨_, h2, _⟩)
          · exact h
          · omega
    · rw [getD_modifyAt_ne j i _ D _ hij]
      constructor
      · exact Or.inl
      · rintro (h | ⟨h1, _, _⟩)
        · exact h
        · injection h1 with h1a h1b
          exact absurd h1a hij

theorem redefinedBit_applyEvent (M : List DexFile) (D : List DexFileDeps) (e : REvent)
    (i c : Nat) :
    (((applyEvent M D e).getD i (DexFileDeps.init 0)).redefined_classes_.getD c false = true) ↔
      (((D.getD i (DexFileDeps.init 0)).redefined_classes_.getD c false = true) ∨
        (e = REvent.redefined i c ∧ i < D.length ∧
          c < ((D.getD i (DexFileDeps.init 0)).redefined_classes_).length)) := by
  cases e with
  | classRes j t k =>
    simp only [applyEvent]
    rw [getD_modifyAt_proj (fun d => d.redefined_classes_) _
      (fun a => (addClassResolution_bits t k a).2) j i D _]
    simp
  | fieldRes j fi f =>
    simp only [applyEvent]
    rw [getD_modifyAt_proj (fun d => d.redefined_classes_) _
      (fun a => (addFieldResolution_bits _ fi f a).2) j i D _]
    simp
  | methodRes j mi m =>
    simp only [applyEvent]
    rw [getD_modifyAt_proj (fun d => d.redefined_classes_) _
      (fun a => (addMethodResolution_bits _ mi m a).2) j i D _]
    simp
  | assign j dst src st b =>
    simp only [applyEvent]
    rw [getD_modifyAt_proj (fun d => d.redefined_classes_) _
      (fun a => (addAssignability_bits _ dst src st b a).2) j i D _]
    simp
  | verified j c' =>
    simp only [applyEvent]
    rw [getD_modifyAt_proj (fun d => d.redefined_classes_) _
      (fun a => by simp [RecordClassVerified]) j i D _]
    simp
  | redefined j c' =>
    simp only [applyEvent]
    by_cases hij : j = i
    · subst hij
      by_cases hl : j < D.length
      · rw [getD_modifyAt_self j _ D _ hl]
        unfold RecordClassRedefinition
        simp only
        rw [getD_set_true]
        simp only [REvent.redefined.injEq]
        constructor
        · rintro (h | ⟨h1, h2⟩)
          · exact Or.inl h
          · exact Or.inr ⟨⟨trivial, h1⟩, hl, h2⟩
        · rintro (h | ⟨⟨_, h1⟩, _, h2⟩)
          · exact Or.inl h
          · exact Or.inr ⟨h1, h2⟩
      · rw [modifyAt_of_le j _ D (by omega)]
        simp only [REvent.redefined.injEq]
        constructor
        · exact Or.inl
        · rintro (h | ⟨_, h2, _⟩)
          · exact h
          · omega
    · rw [getD_modifyAt_ne j i _ D _ hij]
      constructor
      · exact Or.inl
      · rintro (h | ⟨h1, _, _⟩)
        · exact h
        · injection h1 with h1a h1b
          exact absurd h1a hij

theorem verifiedBit_foldl (M : List DexFile) :
    ∀ (evs : List REvent) (D : List DexFileDeps) (i c : Nat),
    (((evs.foldl (applyEvent M) D).getD i (DexFileDeps.init 0)).verified_classes_.getD c false
      = true) ↔
      (((D.getD i (DexFileDeps.init 0)).verified_classes_.getD c false = true) ∨
        (REvent.verified i c ∈ evs ∧ i < D.length ∧
          c < ((D.getD i (DexFileDeps.init 0)).verified_classes_).length)) := by
  intro evs
  induction evs with
  | nil =>
    intro D i c
    simp
  | cons e evs ih =>
    intro D i c
    simp only [List.foldl_cons]
    rw [ih, verifiedBit_applyEvent, applyEvent_length, applyEvent_vlen]
    simp only [List.mem_cons]
    tauto

theorem redefinedBit_foldl (M : List DexFile) :
    ∀ (evs : List REvent) (D : List DexFileDeps) (i c : Nat),
    (((evs.foldl (applyEvent M) D).getD i (DexFileDeps.init 0)).redefined_classes_.getD c false
      = true) ↔
      (((D.getD i (DexFileDeps.init 0)).redefined_classes_.getD c false = true) ∨
        (REvent.redefined i c ∈ evs ∧ i < D.length ∧
          c < ((D.getD i (DexFileDeps.init 0)).redefined_classes_).length)) := by
  intro evs
  induction evs with
  | nil =>
    intro D i c
    simp
  | cons e evs ih =>
    intro D i c
    simp only [List.foldl_cons]
    rw [ih, redefinedBit_applyEvent, applyEvent_length, applyEvent_rlen]
    simp only [List.mem_cons]
    tauto

theorem initDeps_length (M : List DexFile) : (initDeps M).length = M.length := by
  simp [initDeps]

theorem checkClassRes_of_ok {env : LiveEnv} {i : Nat} {r : ClassResolution}
    (h : ClassOk env i r) : checkClassRes env i r = true := by
  unfold checkClassRes
  unfold ClassOk at h
  cases henv : env.resolveClass i r.1 with
  | none =>
    rw [henv] at h
    simp [classIsResolved, h]
  | some c =>
    rw [henv] at h
    obtain ⟨h1, h2⟩ := h
    simp [classIsResolved, h1, h2]

theorem checkFieldRes_of_ok {env : LiveEnv} {dex : DexFile} {pool : List Str}
    {i : Nat} {r : FieldResolution} (h : FieldOk env dex pool i r) :
    checkFieldRes env dex pool i r = true := by
  unfold checkFieldRes
  unfold FieldOk at h
  cases henv : env.resolveField i r.1 with
  | none =>
    rw [henv] at h
    simp [fieldIsResolved, h]
  | some f =>
    rw [henv] at h
    obtain ⟨h1, h2, h3, h4⟩ := h
    simp [fieldIsResolved, h1, h2, h4]

theorem checkMethodRes_of_ok {env : LiveEnv} {dex : DexFile} {pool : List Str}
    {i : Nat} {r : MethodResolution} (h : MethodOk env dex pool i r) :
    checkMethodRes env dex pool i r = true := by
  unfold checkMethodRes
  unfold MethodOk at h
  cases henv : env.resolveMethod i r.1 with
  | none =>
    rw [henv] at h
    simp [methodIsResolved, h]
  | some m =>
    rw [henv] at h
    obtain ⟨h1, h2, h3, h4⟩ := h
    simp [methodIsResolved, h1, h2, h4]

theorem verifyDexFile_of_inv {env : LiveEnv} {dex : DexFile} {i : Nat}
    {d : DexFileDeps} (hm : ModInv env dex i d)
    (hint : VerifyInternalClasses env i d = true) : VerifyDexFile env dex i d = true := by
  obtain ⟨hc, hf, hmm, ha, hu⟩ := hm
  unfold VerifyDexFile
  simp only [Bool.and_eq_true]
  refine ⟨⟨⟨⟨⟨?_, ?_⟩, ?_⟩, ?_⟩, ?_⟩, hint⟩
  · rw [List.all_eq_true]
    intro r hr
    exact checkClassRes_of_ok (hc r hr)
  · rw [List.all_eq_true]
    intro r hr
    exact checkFieldRes_of_ok (hf r hr)
  · rw [List.all_eq_true]
    intro r hr
    exact checkMethodRes_of_ok (hmm r hr)
  · rw [List.all_eq_true]
    intro p hp
    obtain ⟨_, _, h3⟩ := ha p hp
    simpa using h3
  · rw [List.all_eq_true]
    intro p hp
    obtain ⟨_, _, h3⟩ := hu p hp
    simpa using h3

theorem verifyInternal_generate (env : LiveEnv) (M : List DexFile)
    (events : List REvent)
    (hecl : ∀ i c, REvent.verified i c ∈ events →
      env.eclipsed i c = false ∨ REvent.redefined i c ∈ events) (i : Nat) :
    VerifyInternalClasses env i ((generate M events).getD i (DexFileDeps.init 0)) = true := by
  unfold VerifyInternalClasses
  rw [List.all_eq_true]
  intro c _
  have hbool : ∀ a b e' : Bool, (a = true → (b = true ∨ e' = false)) →
      (!a || b || !e') = true := by decide
  apply hbool
  intro hv
  rw [show generate M events = events.foldl (applyEvent M) (initDeps M) from rfl,
    verifiedBit_foldl M events (initDeps M) i c] at hv
  rcases hv with hv | ⟨hmem, hiD, hclen⟩
  · exfalso
    by_cases hi : i < M.length
    · rw [initDeps_getD M i hi] at hv
      rw [show (DexFileDeps.init ((M.getD i defaultDexFile).numClassDefs)).verified_classes_ =
        List.replicate ((M.getD i defaultDexFile).numClassDefs) false from rfl] at hv
      rw [getD_replicate_false] at hv
      cases hv
    · rw [List.getD_eq_default (initDeps M) (DexFileDeps.init 0)
        (by rw [initDeps_length]; omega)] at hv
      simp [DexFileDeps.init] at hv
  · rcases hecl i c hmem with he | hr
    · exact Or.inr he
    · left
      rw [show generate M events = events.foldl (applyEvent M) (initDeps M) from rfl,
        redefinedBit_foldl M events (initDeps M) i c]
      right
      refine ⟨hr, hiD, ?_⟩
      have hi : i < M.length := by
        rw [initDeps_length] at hiD
        exact hiD
      rw [initDeps_getD M i hi] at hclen ⊢
      simpa using hclen

/-- C2 counterexample: an aggregate produced by a recording pass can fail
validation against the very same, unchanged environment.  Here the
environment resolves type 0 of module 0 to a class whose low 16 modifier
bits are all set; the recorder truncates the flags to the unresolved
sentinel, so the record claims "unresolved" while re-resolution succeeds,
and `ValidateDependencies` reports a mismatch. -/
theorem validate_after_generation_counterexample :
    (let env : LiveEnv := ⟨fun _ _ => some ⟨[76], 65535, none⟩, fun _ _ => none,
      fun _ _ => none, fun _ _ => true, fun _ _ => false⟩
     ValidateDependencies env [⟨[], 0⟩]
       (generate [⟨[], 0⟩] [REvent.classRes 0 0 (env.resolveClass 0 0)]) = false) := by
  decide

/-- C2 (amended): for every aggregate produced by a recording pass whose
reported outcomes all come from the live environment itself — and in which
no resolved class/field/method carries the all-ones 16-bit access-flags
sentinel, and every class recorded verified that is eclipsed was also
recorded redefined — `ValidateDependencies` against that same unchanged
environment succeeds: every recorded resolution re-resolves with the same
status, access flags and declaring-class descriptor, every recorded
assignability outcome re-derives identically, and no verified,
non-redefined class is eclipsed. -/
theorem validate_after_generation (env : LiveEnv) (M : List DexFile)
    (events : List REvent) (h : Consistent env events) :
    ValidateDependencies env M (generate M events) = true := by
  obtain ⟨hok, hecl⟩ := h
  have hagg := aggInv_generate env M events hok
  unfold ValidateDependencies
  rw [List.all_eq_true]
  intro i hi
  rw [List.mem_range] at hi
  exact verifyDexFile_of_inv (hagg.2 i hi) (verifyInternal_generate env M events hecl i)

theorem validate_after_generation_witness :
    ValidateDependencies
      ⟨fun _ _ => none, fun _ _ => none, fun _ _ => none, fun _ _ => true, fun _ _ => false⟩
      [⟨[], 1⟩]
      (generate [⟨[], 1⟩]
        [REvent.classRes 0 5 none, REvent.verified 0 0,
          REvent.assign 0 ⟨[68], 1, none⟩ ⟨[83], 2, some 0⟩ true true]) = true := by
  apply validate_after_generation
  refine ⟨?_, ?_⟩
  · intro e he
    rcases List.mem_cons.mp he with rfl | he
    · exact ⟨rfl, fun c hc => Option.noConfusion hc⟩
    rcases List.mem_cons.mp he with rfl | he
    · trivial
    rcases List.mem_cons.mp he with rfl | he
    · rfl
    · exact absurd he (List.not_mem_nil e)
  · intro i c _
    left
    rfl

/-! ### Merge analysis (C3, C8) -/

theorem remapOne_extends (dex : DexFile) (bpool : List Str) (id : Nat) (apool : List Str) :
    ∃ t, (remapOne dex bpool id apool).2 = apool ++ t := by
  unfold remapOne
  split
  · exact ⟨[], by simp⟩
  · split
    · exact getIdFromString_pool_extends dex _ apool
    · exact ⟨[], by simp⟩

theorem remapOne_spec (dex : DexFile) (bpool : List Str) (id : Nat) (apool : List Str)
    (hid : id < dex.strings.length + bpool.length) :
    (remapOne dex bpool id apool).1 <
      dex.strings.length + (remapOne dex bpool id apool).2.length ∧
    GetStringFromId dex (remapOne dex bpool id apool).2 (remapOne dex bpool id apool).1 =
      GetStringFromId dex bpool id := by
  unfold remapOne
  by_cases h1 : id < dex.strings.length
  · rw [if_pos h1]
    refine ⟨by simp only; omega, ?_⟩
    unfold GetStringFromId
    rw [if_pos h1, if_pos h1]
  · rw [if_neg h1, if_pos (by omega : id - dex.strings.length < bpool.length)]
    refine ⟨getIdFromString_id_lt dex _ apool, ?_⟩
    rw [getStringFromId_getIdFromString dex _ apool]
    unfold GetStringFromId
    rw [if_neg h1]

theorem mergeTriples_mono (dex : DexFile) (bpool : List Str) :
    ∀ (rs : List (Nat × Nat × Nat)) (st : List (Nat × Nat × Nat) × List Str)
      (x : Nat × Nat × Nat), x ∈ st.1 → x ∈ (mergeTriples dex bpool rs st).1 := by
  intro rs
  induction rs with
  | nil =>
    intro st x hx
    exact hx
  | cons r rs ih =>
    intro st x hx
    exact ih (mergeTripleStep dex bpool st r) x (mem_insertOrdered_of_mem _ _ _ _ hx)

theorem mergeTriples_pool (dex : DexFile) (bpool : List Str) :
    ∀ (rs : List (Nat × Nat × Nat)) (st : List (Nat × Nat × Nat) × List Str),
      ∃ t, (mergeTriples dex bpool rs st).2 = st.2 ++ t := by
  intro rs
  induction rs with
  | nil =>
    intro st
    exact ⟨[], by simp [mergeTriples]⟩
  | cons r rs ih =>
    intro st
    obtain ⟨t2, ht2⟩ := ih (mergeTripleStep dex bpool st r)
    obtain ⟨t1, ht1⟩ := remapOne_extends dex bpool r.2.2 st.2
    refine ⟨t1 ++ t2, ?_⟩
    have hstep : (mergeTriples dex bpool (r :: rs) st).2 =
        (mergeTriples dex bpool rs (mergeTripleStep dex bpool st r)).2 := rfl
    rw [hstep, ht2]
    show (remapOne dex bpool r.2.2 st.2).2 ++ t2 = st.2 ++ (t1 ++ t2)
    rw [ht1, List.append_assoc]

theorem mergeTriples_mem (dex : DexFile) (bpool : List Str) :
    ∀ (rs : List (Nat × Nat × Nat)) (st : List (Nat × Nat × Nat) × List Str),
      ∀ r ∈ rs, ∃ id2, (r.1, r.2.1, id2) ∈ (mergeTriples dex bpool rs st).1 ∧
        (r.2.2 < dex.strings.length + bpool.length →
          id2 < dex.strings.length + (mergeTriples dex bpool rs st).2.length ∧
          GetStringFromId dex (mergeTriples dex bpool rs st).2 id2 =
            GetStringFromId dex bpool r.2.2) := by
  intro rs
  induction rs with
  | nil =>
    intro st r hr
    cases hr
  | cons r0 rs ih =>
    intro st r hr
    rcases List.mem_cons.mp hr with rfl | hr
    · refine ⟨(remapOne dex bpool r.2.2 st.2).1, ?_, ?_⟩
      · exact mergeTriples_mono dex bpool rs _ _ (mem_insertOrdered_self _ _ _)
      · intro hvalid
        obtain ⟨hlt, hdesc⟩ := remapOne_spec dex bpool r.2.2 st.2 hvalid
        obtain ⟨t, ht⟩ := mergeTriples_pool dex bpool rs (mergeTripleStep dex bpool st r)
        have hpool : (mergeTriples dex bpool (r :: rs) st).2 =
            (remapOne dex bpool r.2.2 st.2).2 ++ t := ht
        constructor
        · rw [hpool]
          simp only [List.length_append]
          omega
        · rw [hpool, getStringFromId_extend dex _ t _ hlt]
          exact hdesc
    · exact ih (mergeTripleStep dex bpool st r0) r hr

theorem mergePairs_mono (dex : DexFile) (bpool : List Str) :
    ∀ (rs : List (Nat × Nat)) (st : List (Nat × Nat) × List Str)
      (x : Nat × Nat), x ∈ st.1 → x ∈ (mergePairs dex bpool rs st).1 := by
  intro rs
  induction rs with
  | nil =>
    intro st x hx
    exact hx
  | cons r rs ih =>
    intro st x hx
    exact ih (mergePairStep dex bpool st r) x (mem_insertOrdered_of_mem _ _ _ _ hx)

theorem mergePairs_pool (dex : DexFile) (bpool : List Str) :
    ∀ (rs : List (Nat × Nat)) (st : List (Nat × Nat) × List Str),
      ∃ t, (mergePairs dex bpool rs st).2 = st.2 ++ t := by
  intro rs
  induction rs with
  | nil =>
    intro st
    exact ⟨[], by simp [mergePairs]⟩
  | cons r rs ih =>
    intro st
    obtain ⟨t3, ht3⟩ := ih (mergePairStep dex bpool st r)
    obtain ⟨t1, ht1⟩ := remapOne_extends dex bpool r.1 st.2
    obtain ⟨t2, ht2⟩ := remapOne_extends dex bpool r.2 (remapOne dex bpool r.1 st.2).2
    refine ⟨t1 ++ t2 ++ t3, ?_⟩
    have hstep : (mergePairs dex bpool (r :: rs) st).2 =
        (mergePairs dex bpool rs (mergePairStep dex bpool st r)).2 := rfl
    rw [hstep, ht3]
    show (remapOne dex bpool r.2 (remapOne dex bpool r.1 st.2).2).2 ++ t3 = _
    rw [ht2, ht1]
    simp [List.append_assoc]

theorem mergePairs_mem (dex : DexFile) (bpool : List Str) :
    ∀ (rs : List (Nat × Nat)) (st : List (Nat × Nat) × List Str),
      ∀ p ∈ rs, ∃ d2 s2, (d2, s2) ∈ (mergePairs dex bpool rs st).1 ∧
        (p.1 < dex.strings.length + bpool.length →
          d2 < dex.strings.length + (mergePairs dex bpool rs st).2.length ∧
          GetStringFromId dex (mergePairs dex bpool rs st).2 d2 =
            GetStringFromId dex bpool p.1) ∧
        (p.2 < dex.strings.length + bpool.length →
          s2 < dex.strings.length + (mergePairs dex bpool rs st).2.length ∧
          GetStringFromId dex (mergePairs dex bpool rs st).2 s2 =
            GetStringFromId dex bpool p.2) := by
  intro rs
  induction rs with
  | nil =>
    intro st p hp
    cases hp
  | cons p0 rs ih =>
    intro st p hp
    rcases List.mem_cons.mp hp with rfl | hp
    · refine ⟨(remapOne dex bpool p.1 st.2).1,
        (remapOne dex bpool p.2 (remapOne dex bpool p.1 st.2).2).1, ?_, ?_, ?_⟩
      · exact mergePairs_mono dex bpool rs _ _ (mem_insertOrdered_self _ _ _)
      · intro hvalid
        obtain ⟨hdlt, hddesc⟩ := remapOne_spec dex bpool p.1 st.2 hvalid
        obtain ⟨e2, he2⟩ := remapOne_extends dex bpool p.2 (remapOne dex bpool p.1 st.2).2
        obtain ⟨t, ht⟩ := mergePairs_pool dex bpool rs (mergePairStep dex bpool st p)
        have hpool : (mergePairs dex bpool (p :: rs) st).2 =
            (remapOne dex bpool p.2 (remapOne dex bpool p.1 st.2).2).2 ++ t := ht
        constructor
        · rw [hpool, he2]
          simp only [List.length_append]
          omega
        · rw [hpool, he2, List.append_assoc]
          rw [getStringFromId_extend dex _ (e2 ++ t) _ hdlt]
          exact hddesc
      · intro hvalid
        obtain ⟨hslt, hsdesc⟩ := remapOne_spec dex bpool p.2 (remapOne dex bpool p.1 st.2).2 hvalid
        obtain ⟨t, ht⟩ := mergePairs_pool dex bpool rs (mergePairStep dex bpool st p)
        have hpool : (mergePairs dex bpool (p :: rs) st).2 =
            (remapOne dex bpool p.2 (remapOne dex bpool p.1 st.2).2).2 ++ t := ht
        constructor
        · rw [hpool]
          simp only [List.length_append]
          omega
        · rw [hpool, getStringFromId_extend dex _ t _ hslt]
          exact hsdesc
    · exact ih (mergePairStep dex bpool st p0) p hp

theorem mergePairs_pairOk (env : LiveEnv) (dex : DexFile) (bpool : List Str) (b : Bool) :
    ∀ (rs : List (Nat × Nat)) (st : List (Nat × Nat) × List Str),
      (∀ x ∈ st.1, PairOk env dex st.2 b x) →
      (∀ r ∈ rs, PairOk env dex bpool b r) →
      ∀ x ∈ (mergePairs dex bpool rs st).1,
        PairOk env dex (mergePairs dex bpool rs st).2 b x := by
  intro rs
  induction rs with
  | nil =>
    intro st hst _
    exact hst
  | cons r rs ih =>
    intro st hst hrs
    apply ih (mergePairStep dex bpool st r)
    · intro x hx
      rcases (mem_insertOrdered _ _ _ _).mp hx with rfl | hx
      · obtain ⟨hv1, hv2, hor⟩ := hrs r (List.mem_cons_self r rs)
        obtain ⟨hdlt, hddesc⟩ := remapOne_spec dex bpool r.1 st.2 hv1
        obtain ⟨e, he⟩ := remapOne_extends dex bpool r.2 (remapOne dex bpool r.1 st.2).2
        obtain ⟨hslt, hsdesc⟩ := remapOne_spec dex bpool r.2 (remapOne dex bpool r.1 st.2).2 hv2
        refine ⟨?_, hslt, ?_⟩
        · show (remapOne dex bpool r.1 st.2).1 <
            dex.strings.length + (remapOne dex bpool r.2 (remapOne dex bpool r.1 st.2).2).2.length
          rw [he]
          simp only [List.length_append]
          omega
        · have h1 : GetStringFromId dex
              (remapOne dex bpool r.2 (remapOne dex bpool r.1 st.2).2).2
              (remapOne dex bpool r.1 st.2).1 = GetStringFromId dex bpool r.1 := by
            rw [he, getStringFromId_extend dex _ e _ hdlt]
            exact hddesc
          show env.assignable
            (GetStringFromId dex (remapOne dex bpool r.2 (remapOne dex bpool r.1 st.2).2).2
              (remapOne dex bpool r.1 st.2).1)
            (GetStringFromId dex (remapOne dex bpool r.2 (remapOne dex bpool r.1 st.2).2).2
              (remapOne dex bpool r.2 (remapOne dex bpool r.1 st.2).2).1) = b
          rw [h1, hsdesc]
          exact hor
      · have hx' := hst x hx
        obtain ⟨e1, he1⟩ := remapOne_extends dex bpool r.1 st.2
        obtain ⟨e2, he2⟩ := remapOne_extends dex bpool r.2 (remapOne dex bpool r.1 st.2).2
        have hstep : (mergePairStep dex bpool st r).2 = st.2 ++ (e1 ++ e2) := by
          show (remapOne dex bpool r.2 (remapOne dex bpool r.1 st.2).2).2 = _
          rw [he2, he1, List.append_assoc]
        have := pairOk_extend (e1 ++ e2) hx'
        rw [← hstep] at this
        exact this
    · exact fun r' hr' => hrs r' (List.mem_cons_of_mem r hr')

theorem mergeClasses_mono :
    ∀ (rs acc : List (Nat × Nat)) (x : Nat × Nat), x ∈ acc →
      x ∈ rs.foldl (fun cs r => insertOrdered lex2Lt r cs) acc := by
  intro rs
  induction rs with
  | nil =>
    intro acc x hx
    exact hx
  | cons r rs ih =>
    intro acc x hx
    exact ih (insertOrdered lex2Lt r acc) x (mem_insertOrdered_of_mem _ _ _ _ hx)

theorem mergeClasses_mem :
    ∀ (rs acc : List (Nat × Nat)), ∀ r ∈ rs,
      r ∈ rs.foldl (fun cs r => insertOrdered lex2Lt r cs) acc := by
  intro rs
  induction rs with
  | nil =>
    intro acc r hr
    cases hr
  | cons r0 rs ih =>
    intro acc r hr
    rcases List.mem_cons.mp hr with rfl | hr
    · exact mergeClasses_mono rs _ _ (mem_insertOrdered_self _ _ _)
    · exact ih (insertOrdered lex2Lt r0 acc) r hr

theorem mergeAll_getD :
    ∀ (M : List DexFile) (as_ bs : List DexFileDeps) (i : Nat), i < M.length →
      as_.length = M.length → bs.length = M.length →
      (mergeAll M as_ bs).getD i (DexFileDeps.init 0) =
        mergeDexFileDeps (M.getD i defaultDexFile) (as_.getD i (DexFileDeps.init 0))
          (bs.getD i (DexFileDeps.init 0)) := by
  intro M
  induction M with
  | nil =>
    intro as_ bs i hi
    simp at hi
  | cons dex Mt ih =>
    intro as_ bs i hi hla hlb
    cases as_ with
    | nil => simp at hla
    | cons a at_ =>
      cases bs with
      | nil => simp at hlb
      | cons b bt =>
        cases i with
        | zero => rfl
        | succ i =>
          simp only [mergeAll, List.getD_cons_succ]
          exact ih at_ bt i (by simpa using hi) (by simpa using hla) (by simpa using hlb)

theorem foldl_applyEvent_length (M : List DexFile) :
    ∀ (evs : List REvent) (D : List DexFileDeps),
      (evs.foldl (applyEvent M) D).length = D.length := by
  intro evs
  induction evs with
  | nil =>
    intro D
    rfl
  | cons e evs ih =>
    intro D
    simp only [List.foldl_cons]
    rw [ih, applyEvent_length]

theorem generate_length (M : List DexFile) (evs : List REvent) :
    (generate M evs).length = M.length := by
  rw [generate, foldl_applyEvent_length, initDeps_length]

theorem getD_zipWith_bool (f : Bool → Bool → Bool) :
    ∀ (l1 l2 : List Bool) (c : Nat), c < l1.length → c < l2.length →
      (List.zipWith f l1 l2).getD c false = f (l1.getD c false) (l2.getD c false) := by
  intro l1
  induction l1 with
  | nil =>
    intro l2 c h1
    simp at h1
  | cons a t ih =>
    intro l2 c h1 h2
    cases l2 with
    | nil => simp at h2
    | cons b t2 =>
      cases c with
      | zero => rfl
      | succ c =>
        simp only [List.zipWith_cons_cons, List.getD_cons_succ]
        exact ih t2 c (by simpa using h1) (by simpa using h2)

/-- Per-module content of a merge: A's facts are kept verbatim, B's facts
are present with remapped (content-preserved) string ids, and the bit
vectors combine with AND (verified) / OR (redefined). -/
theorem mergeDexFileDeps_spec (dex : DexFile) (a b : DexFileDeps) :
    (∀ r ∈ a.classes_, r ∈ (mergeDexFileDeps dex a b).classes_) ∧
    (∀ r ∈ b.classes_, r ∈ (mergeDexFileDeps dex a b).classes_) ∧
    (∀ r ∈ a.fields_, r ∈ (mergeDexFileDeps dex a b).fields_) ∧
    (∀ r ∈ a.methods_, r ∈ (mergeDexFileDeps dex a b).methods_) ∧
    (∀ p ∈ a.assignable_types_, p ∈ (mergeDexFileDeps dex a b).assignable_types_) ∧
    (∀ p ∈ a.unassignable_types_, p ∈ (mergeDexFileDeps dex a b).unassignable_types_) ∧
    (∀ r ∈ b.fields_, ∃ id2, (r.1, r.2.1, id2) ∈ (mergeDexFileDeps dex a b).fields_ ∧
      (r.2.2 < dex.strings.length + b.strings_.length →
        GetStringFromId dex (mergeDexFileDeps dex a b).strings_ id2 =
          GetStringFromId dex b.strings_ r.2.2)) ∧
    (∀ r ∈ b.methods_, ∃ id2, (r.1, r.2.1, id2) ∈ (mergeDexFileDeps dex a b).methods_ ∧
      (r.2.2 < dex.strings.length + b.strings_.length →
        GetStringFromId dex (mergeDexFileDeps dex a b).strings_ id2 =
          GetStringFromId dex b.strings_ r.2.2)) ∧
    (∀ p ∈ b.assignable_types_, ∃ d2 s2,
      (d2, s2) ∈ (mergeDexFileDeps dex a b).assignable_types_ ∧
      (p.1 < dex.strings.length + b.strings_.length →
        GetStringFromId dex (mergeDexFileDeps dex a b).strings_ d2 =
          GetStringFromId dex b.strings_ p.1) ∧
      (p.2 < dex.strings.length + b.strings_.length →
        GetStringFromId dex (mergeDexFileDeps dex a b).strings_ s2 =
          GetStringFromId dex b.strings_ p.2)) ∧
    (∀ p ∈ b.unassignable_types_, ∃ d2 s2,
      (d2, s2) ∈ (mergeDexFileDeps dex a b).unassignable_types_ ∧
      (p.1 < dex.strings.length + b.strings_.length →
        GetStringFromId dex (mergeDexFileDeps dex a b).strings_ d2 =
          GetStringFromId dex b.strings_ p.1) ∧
      (p.2 < dex.strings.length + b.strings_.length →
        GetStringFromId dex (mergeDexFileDeps dex a b).strings_ s2 =
          GetStringFromId dex b.strings_ p.2)) ∧
    (∀ c, c < a.verified_classes_.length → c < b.verified_classes_.length →
      (mergeDexFileDeps dex a b).verified_classes_.getD c false =
        (a.verified_classes_.getD c false && b.verified_classes_.getD c false)) ∧
    (∀ c, c < a.redefined_classes_.length → c < b.redefined_classes_.length →
      (mergeDexFileDeps dex a b).redefined_classes_.getD c false =
        (a.redefined_classes_.getD c false || b.redefined_classes_.getD c false)) := by
  obtain ⟨eM, hM⟩ := mergeTriples_pool dex b.strings_ b.methods_
    (a.methods_, (mergeTriples dex b.strings_ b.fields_ (a.fields_, a.strings_)).2)
  obtain ⟨eA, hA2⟩ := mergePairs_pool dex b.strings_ b.assignable_types_
    (a.assignable_types_, (mergeTriples dex b.strings_ b.methods_
      (a.methods_, (mergeTriples dex b.strings_ b.fields_ (a.fields_, a.strings_)).2)).2)
  obtain ⟨eU, hU2⟩ := mergePairs_pool dex b.strings_ b.unassignable_types_
    (a.unassignable_types_, (mergePairs dex b.strings_ b.assignable_types_
      (a.assignable_types_, (mergeTriples dex b.strings_ b.methods_
        (a.methods_, (mergeTriples dex b.strings_ b.fields_ (a.fields_, a.strings_)).2)).2)).2)
  refine ⟨?_, ?_, ?_, ?_, ?_, ?_, ?_, ?_, ?_, ?_, ?_, ?_⟩
  · intro r hr
    exact mergeClasses_mono b.classes_ a.classes_ r hr
  · intro r hr
    exact mergeClasses_mem b.classes_ a.classes_ r hr
  · intro r hr
    exact mergeTriples_mono dex b.strings_ b.fields_ (a.fields_, a.strings_) r hr
  · intro r hr
    exact mergeTriples_mono dex b.strings_ b.methods_
      (a.methods_, (mergeTriples dex b.strings_ b.fields_ (a.fields_, a.strings_)).2) r hr
  · intro p hp
    exact mergePairs_mono dex b.strings_ b.assignable_types_
      (a.assignable_types_, (mergeTriples dex b.strings_ b.methods_
        (a.methods_, (mergeTriples dex b.strings_ b.fields_ (a.fields_, a.strings_)).2)).2) p hp
  · intro p hp
    exact mergePairs_mono dex b.strings_ b.unassignable_types_
      (a.unassignable_types_, (mergePairs dex b.strings_ b.assignable_types_
        (a.assignable_types_, (mergeTriples dex b.strings_ b.methods_
          (a.methods_, (mergeTriples dex b.strings_ b.fields_ (a.fields_, a.strings_)).2)).2)).2)
      p hp
  · intro r hr
    obtain ⟨id2, hmem, hdesc⟩ :=
      mergeTriples_mem dex b.strings_ b.fields_ (a.fields_, a.strings_) r hr
    refine ⟨id2, hmem, ?_⟩
    intro hvalid
    obtain ⟨hlt, hd⟩ := hdesc hvalid
    have hchain : (mergeDexFileDeps dex a b).strings_ =
        (mergeTriples dex b.strings_ b.fields_ (a.fields_, a.strings_)).2 ++
          (eM ++ (eA ++ eU)) := by
      show (mergePairs dex b.strings_ b.unassignable_types_ _).2 = _
      rw [hU2, hA2, hM]
      simp [List.append_assoc]
    rw [hchain, getStringFromId_extend dex _ _ _ hlt]
    exact hd
  · intro r hr
    obtain ⟨id2, hmem, hdesc⟩ := mergeTriples_mem dex b.strings_ b.methods_
      (a.methods_, (mergeTriples dex b.strings_ b.fields_ (a.fields_, a.strings_)).2) r hr
    refine ⟨id2, hmem, ?_⟩
    intro hvalid
    obtain ⟨hlt, hd⟩ := hdesc hvalid
    have hchain : (mergeDexFileDeps dex a b).strings_ =
        (mergeTriples dex b.strings_ b.methods_
          (a.methods_, (mergeTriples dex b.strings_ b.fields_ (a.fields_, a.strings_)).2)).2 ++
          (eA ++ eU) := by
      show (mergePairs dex b.strings_ b.unassignable_types_ _).2 = _
      rw [hU2, hA2]
      simp [List.append_assoc]
    rw [hchain, getStringFromId_extend dex _ _ _ hlt]
    exact hd
  · intro p hp
    obtain ⟨d2, s2, hmem, hd, hs⟩ := mergePairs_mem dex b.strings_ b.assignable_types_
      (a.assignable_types_, (mergeTriples dex b.strings_ b.methods_
        (a.methods_, (mergeTriples dex b.strings_ b.fields_ (a.fields_, a.strings_)).2)).2) p hp
    refine ⟨d2, s2, hmem, ?_, ?_⟩
    · intro hvalid
      obtain ⟨hlt, hdesc⟩ := hd hvalid
      have hchain : (mergeDexFileDeps dex a b).strings_ =
          (mergePairs dex b.strings_ b.assignable_types_
            (a.assignable_types_, (mergeTriples dex b.strings_ b.methods_
              (a.methods_, (mergeTriples dex b.strings_ b.fields_
                (a.fields_, a.strings_)).2)).2)).2 ++ eU := by
        show (mergePairs dex b.strings_ b.unassignable_types_ _).2 = _
        rw [hU2]
      rw [hchain, getStringFromId_extend dex _ _ _ hlt]
      exact hdesc
    · intro hvalid
      obtain ⟨hlt, hdesc⟩ := hs hvalid
      have hchain : (mergeDexFileDeps dex a b).strings_ =
          (mergePairs dex b.strings_ b.assignable_types_
            (a.assignable_types_, (mergeTriples dex b.strings_ b.methods_
              (a.methods_, (mergeTriples dex b.strings_ b.fields_
                (a.fields_, a.strings_)).2)).2)).2 ++ eU := by
        show (mergePairs dex b.strings_ b.unassignable_types_ _).2 = _
        rw [hU2]
      rw [hchain, getStringFromId_extend dex _ _ _ hlt]
      exact hdesc
  · intro p hp
    obtain ⟨d2, s2, hmem, hd, hs⟩ := mergePairs_mem dex b.strings_ b.unassignable_types_
      (a.unassignable_types_, (mergePairs dex b.strings_ b.assignable_types_
        (a.assignable_types_, (mergeTriples dex b.strings_ b.methods_
          (a.methods_, (mergeTriples dex b.strings_ b.fields_
            (a.fields_, a.strings_)).2)).2)).2) p hp
    exact ⟨d2, s2, hmem, fun hv => (hd hv).2, fun hv => (hs hv).2⟩
  · intro c h1 h2
    exact getD_zipWith_bool and a.verified_classes_ b.verified_classes_ c h1 h2
  · intro c h1 h2
    exact getD_zipWith_bool or a.redefined_classes_ b.redefined_classes_ c h1 h2

/-- C3: for aggregates `A` and `B` built over the identical ordered module
list `M`, after `MergeWith`: per module, every class/field/method/
assignability fact present in A or in B is present in the result — B's
records with their extra-string ids remapped through A's pool (the denoted
descriptor string is preserved; the numeric id is not assumed equal) — and
for every class-definition index the result's verified bit is true iff it
is true in both A and B, while the redefined bit is true if it is true in
either. -/
theorem mergeWith_union (M : List DexFile) (A B : VerifierDeps)
    (hla : A.dex_deps_.length = M.length) (hlb : B.dex_deps_.length = M.length)
    (i : Nat) (hi : i < M.length) :
    ∀ dex a b m, dex = M.getD i defaultDexFile →
      a = A.dex_deps_.getD i (DexFileDeps.init 0) →
      b = B.dex_deps_.getD i (DexFileDeps.init 0) →
      m = (MergeWith A B M).dex_deps_.getD i (DexFileDeps.init 0) →
      (m = mergeDexFileDeps dex a b ∧
      (∀ r ∈ a.classes_, r ∈ m.classes_) ∧
      (∀ r ∈ b.classes_, r ∈ m.classes_) ∧
      (∀ r ∈ a.fields_, r ∈ m.fields_) ∧
      (∀ r ∈ a.methods_, r ∈ m.methods_) ∧
      (∀ p ∈ a.assignable_types_, p ∈ m.assignable_types_) ∧
      (∀ p ∈ a.unassignable_types_, p ∈ m.unassignable_types_) ∧
      (∀ r ∈ b.fields_, ∃ id2, (r.1, r.2.1, id2) ∈ m.fields_ ∧
        (r.2.2 < dex.strings.length + b.strings_.length →
          GetStringFromId dex m.strings_ id2 = GetStringFromId dex b.strings_ r.2.2)) ∧
      (∀ r ∈ b.methods_, ∃ id2, (r.1, r.2.1, id2) ∈ m.methods_ ∧
        (r.2.2 < dex.strings.length + b.strings_.length →
          GetStringFromId dex m.strings_ id2 = GetStringFromId dex b.strings_ r.2.2)) ∧
      (∀ p ∈ b.assignable_types_, ∃ d2 s2, (d2, s2) ∈ m.assignable_types_ ∧
        (p.1 < dex.strings.length + b.strings_.length →
          GetStringFromId dex m.strings_ d2 = GetStringFromId dex b.strings_ p.1) ∧
        (p.2 < dex.strings.length + b.strings_.length →
          GetStringFromId dex m.strings_ s2 = GetStringFromId dex b.strings_ p.2)) ∧
      (∀ p ∈ b.unassignable_types_, ∃ d2 s2, (d2, s2) ∈ m.unassignable_types_ ∧
        (p.1 < dex.strings.length + b.strings_.length →
          GetStringFromId dex m.strings_ d2 = GetStringFromId dex b.strings_ p.1) ∧
        (p.2 < dex.strings.length + b.strings_.length →
          GetStringFromId dex m.strings_ s2 = GetStringFromId dex b.strings_ p.2)) ∧
      (∀ c, c < a.verified_classes_.length → c < b.verified_classes_.length →
        m.verified_classes_.getD c false =
          (a.verified_classes_.getD c false && b.verified_classes_.getD c false)) ∧
      (∀ c, c < a.redefined_classes_.length → c < b.redefined_classes_.length →
        m.redefined_classes_.getD c false =
          (a.redefined_classes_.getD c false || b.redefined_classes_.getD c false))) := by
  intro dex a b m hdex ha hb hm
  subst hdex
  subst ha
  subst hb
  subst hm
  have hmd : (MergeWith A B M).dex_deps_.getD i (DexFileDeps.init 0) =
      mergeDexFileDeps (M.getD i defaultDexFile)
        (A.dex_deps_.getD i (DexFileDeps.init 0))
        (B.dex_deps_.getD i (DexFileDeps.init 0)) :=
    mergeAll_getD M A.dex_deps_ B.dex_deps_ i hi hla hlb
  rw [hmd]
  exact ⟨rfl, mergeDexFileDeps_spec (M.getD i defaultDexFile)
    (A.dex_deps_.getD i (DexFileDeps.init 0)) (B.dex_deps_.getD i (DexFileDeps.init 0))⟩

theorem mergeWith_union_witness :
    ∃ id2, (2, 7, id2) ∈
      ((MergeWith ⟨[⟨[[65]], [], [], [], [(0, 1, 0)], [], [false], [false]⟩], true⟩
          ⟨[⟨[[66], [65]], [], [], [(3, 4)], [(2, 7, 1)], [], [true], [true]⟩], true⟩
          [⟨[], 1⟩]).dex_deps_.getD 0 (DexFileDeps.init 0)).fields_ ∧
      (1 < (0 : Nat) + ([[66], [65]] : List Str).length →
        GetStringFromId ⟨[], 1⟩
          ((MergeWith ⟨[⟨[[65]], [], [], [], [(0, 1, 0)], [], [false], [false]⟩], true⟩
            ⟨[⟨[[66], [65]], [], [], [(3, 4)], [(2, 7, 1)], [], [true], [true]⟩], true⟩
            [⟨[], 1⟩]).dex_deps_.getD 0 (DexFileDeps.init 0)).strings_ id2 =
          GetStringFromId ⟨[], 1⟩ [[66], [65]] 1) :=
  (mergeWith_union [⟨[], 1⟩]
    ⟨[⟨[[65]], [], [], [], [(0, 1, 0)], [], [false], [false]⟩], true⟩
    ⟨[⟨[[66], [65]], [], [], [(3, 4)], [(2, 7, 1)], [], [true], [true]⟩], true⟩
    rfl rfl 0 (by decide) _ _ _ _ rfl rfl rfl rfl).2.2.2.2.2.2.2.1 (2, 7, 1) (by decide)

/-- Merging two aggregates whose assignability pairs agree with the same
oracle yields an aggregate whose pairs still agree with that oracle. -/
theorem mergeDexFileDeps_pairOk (env : LiveEnv) (dex : DexFile) (a b : DexFileDeps)
    (haA : ∀ p ∈ a.assignable_types_, PairOk env dex a.strings_ true p)
    (haU : ∀ p ∈ a.unassignable_types_, PairOk env dex a.strings_ false p)
    (hbA : ∀ p ∈ b.assignable_types_, PairOk env dex b.strings_ true p)
    (hbU : ∀ p ∈ b.unassignable_types_, PairOk env dex b.strings_ false p) :
    (∀ p ∈ (mergeDexFileDeps dex a b).assignable_types_,
      PairOk env dex (mergeDexFileDeps dex a b).strings_ true p) ∧
    (∀ p ∈ (mergeDexFileDeps dex a b).unassignable_types_,
      PairOk env dex (mergeDexFileDeps dex a b).strings_ false p) := by
  obtain ⟨eF, hF⟩ := mergeTriples_pool dex b.strings_ b.fields_ (a.fields_, a.strings_)
  obtain ⟨eM, hM⟩ := mergeTriples_pool dex b.strings_ b.methods_
    (a.methods_, (mergeTriples dex b.strings_ b.fields_ (a.fields_, a.strings_)).2)
  obtain ⟨eA, hA2⟩ := mergePairs_pool dex b.strings_ b.assignable_types_
    (a.assignable_types_, (mergeTriples dex b.strings_ b.methods_
      (a.methods_, (mergeTriples dex b.strings_ b.fields_ (a.fields_, a.strings_)).2)).2)
  obtain ⟨eU, hU2⟩ := mergePairs_pool dex b.strings_ b.unassignable_types_
    (a.unassignable_types_, (mergePairs dex b.strings_ b.assignable_types_
      (a.assignable_types_, (mergeTriples dex b.strings_ b.methods_
        (a.methods_, (mergeTriples dex b.strings_ b.fields_ (a.fields_, a.strings_)).2)).2)).2)
  have hMM2 : (mergeTriples dex b.strings_ b.methods_
      (a.methods_, (mergeTriples dex b.strings_ b.fields_ (a.fields_, a.strings_)).2)).2 =
      a.strings_ ++ (eF ++ eM) := by
    rw [hM, hF, List.append_assoc]
  have hstA : ∀ x ∈ a.assignable_types_, PairOk env dex
      (mergeTriples dex b.strings_ b.methods_
        (a.methods_, (mergeTriples dex b.strings_ b.fields_ (a.fields_, a.strings_)).2)).2
      true x := by
    intro x hx
    rw [hMM2]
    exact pairOk_extend (eF ++ eM) (haA x hx)
  have hA' := mergePairs_pairOk env dex b.strings_ true b.assignable_types_
    (a.assignable_types_, (mergeTriples dex b.strings_ b.methods_
      (a.methods_, (mergeTriples dex b.strings_ b.fields_ (a.fields_, a.strings_)).2)).2)
    hstA hbA
  have hAM2 : (mergePairs dex b.strings_ b.assignable_types_
      (a.assignable_types_, (mergeTriples dex b.strings_ b.methods_
        (a.methods_, (mergeTriples dex b.strings_ b.fields_ (a.fields_, a.strings_)).2)).2)).2 =
      a.strings_ ++ (eF ++ (eM ++ eA)) := by
    rw [hA2, hMM2]
    simp [List.append_assoc]
  have hstU : ∀ x ∈ a.unassignable_types_, PairOk env dex
      (mergePairs dex b.strings_ b.assignable_types_
        (a.assignable_types_, (mergeTriples dex b.strings_ b.methods_
          (a.methods_, (mergeTriples dex b.strings_ b.fields_ (a.fields_, a.strings_)).2)).2)).2
      false x := by
    intro x hx
    rw [hAM2]
    exact pairOk_extend (eF ++ (eM ++ eA)) (haU x hx)
  have hU' := mergePairs_pairOk env dex b.strings_ false b.unassignable_types_
    (a.unassignable_types_, (mergePairs dex b.strings_ b.assignable_types_
      (a.assignable_types_, (mergeTriples dex b.strings_ b.methods_
        (a.methods_, (mergeTriples dex b.strings_ b.fields_ (a.fields_, a.strings_)).2)).2)).2)
    hstU hbU
  constructor
  · intro p hp
    have h := hA' p hp
    have hchain : (mergeDexFileDeps dex a b).strings_ =
        (mergePairs dex b.strings_ b.assignable_types_
          (a.assignable_types_, (mergeTriples dex b.strings_ b.methods_
            (a.methods_, (mergeTriples dex b.strings_ b.fields_
              (a.fields_, a.strings_)).2)).2)).2 ++ eU := by
      show (mergePairs dex b.strings_ b.unassignable_types_ _).2 = _
      rw [hU2]
    rw [show (mergeDexFileDeps dex a b).strings_ =
      (mergePairs dex b.strings_ b.assignable_types_
        (a.assignable_types_, (mergeTriples dex b.strings_ b.methods_
          (a.methods_, (mergeTriples dex b.strings_ b.fields_
            (a.fields_, a.strings_)).2)).2)).2 ++ eU from hchain]
    exact pairOk_extend eU h
  · intro p hp
    exact hU' p hp

/-- C8 counterexample: the mutual-exclusion invariant does not hold after
an arbitrary sequence of recorder calls — two calls reporting opposite
outcomes for the same (destination, source) pair put the interned id pair
into both `assignable_types_` and `unassignable_types_`. -/
theorem assignability_disjoint_counterexample :
    ((0, 1) ∈ ((generate [⟨[], 0⟩]
        [REvent.assign 0 ⟨[68], 0, none⟩ ⟨[83], 0, none⟩ true true,
          REvent.assign 0 ⟨[68], 0, none⟩ ⟨[83], 0, none⟩ true false]).getD 0
        (DexFileDeps.init 0)).assignable_types_) ∧
    ((0, 1) ∈ ((generate [⟨[], 0⟩]
        [REvent.assign 0 ⟨[68], 0, none⟩ ⟨[83], 0, none⟩ true true,
          REvent.assign 0 ⟨[68], 0, none⟩ ⟨[83], 0, none⟩ true false]).getD 0
        (DexFileDeps.init 0)).unassignable_types_) := by
  decide

/-- C8 (amended): in every state reached by a sequence of recorder calls
whose reported assignability outcomes agree with one oracle (no pair is
reported with two different outcomes), and in merges of two aggregates so
produced, no (destination-id, source-id) pair appears in both
`assignable_types_` and `unassignable_types_`: the two sets are disjoint. -/
theorem assignability_disjoint (env : LiveEnv) (M : List DexFile)
    (events1 events2 : List REvent) (h1 : ∀ e ∈ events1, eventOk env e)
    (h2 : ∀ e ∈ events2, eventOk env e) (i : Nat) (hi : i < M.length) :
    (∀ p ∈ ((generate M events1).getD i (DexFileDeps.init 0)).assignable_types_,
      p ∉ ((generate M events1).getD i (DexFileDeps.init 0)).unassignable_types_) ∧
    (∀ p ∈ ((MergeWith ⟨generate M events1, true⟩ ⟨generate M events2, true⟩
        M).dex_deps_.getD i (DexFileDeps.init 0)).assignable_types_,
      p ∉ ((MergeWith ⟨generate M events1, true⟩ ⟨generate M events2, true⟩
        M).dex_deps_.getD i (DexFileDeps.init 0)).unassignable_types_) := by
  have hagg1 := (aggInv_generate env M events1 h1).2 i hi
  have hagg2 := (aggInv_generate env M events2 h2).2 i hi
  obtain ⟨_, _, _, ha1, hu1⟩ := hagg1
  obtain ⟨_, _, _, ha2, hu2⟩ := hagg2
  constructor
  · intro p hp hq
    have e1 := (ha1 p hp).2.2
    have e2 := (hu1 p hq).2.2
    rw [e1] at e2
    cases e2
  · have hmd : (MergeWith ⟨generate M events1, true⟩ ⟨generate M events2, true⟩
        M).dex_deps_.getD i (DexFileDeps.init 0) =
        mergeDexFileDeps (M.getD i defaultDexFile)
          ((generate M events1).getD i (DexFileDeps.init 0))
          ((generate M events2).getD i (DexFileDeps.init 0)) :=
      mergeAll_getD M (generate M events1) (generate M events2) i hi
        (generate_length M events1) (generate_length M events2)
    rw [hmd]
    obtain ⟨hmA, hmU⟩ := mergeDexFileDeps_pairOk env (M.getD i defaultDexFile)
      ((generate M events1).getD i (DexFileDeps.init 0))
      ((generate M events2).getD i (DexFileDeps.init 0)) ha1 hu1 ha2 hu2
    intro p hp hq
    have e1 := (hmA p hp).2.2
    have e2 := (hmU p hq).2.2
    rw [e1] at e2
    cases e2

theorem assignability_disjoint_witness :
    (0, 1) ∉ ((generate [⟨[], 0⟩]
      [REvent.assign 0 ⟨[68], 0, none⟩ ⟨[83], 0, none⟩ true true]).getD 0
      (DexFileDeps.init 0)).unassignable_types_ := by
  have h := assignability_disjoint
    ⟨fun _ _ => none, fun _ _ => none, fun _ _ => none, fun _ _ => true, fun _ _ => false⟩
    [⟨[], 0⟩] [REvent.assign 0 ⟨[68], 0, none⟩ ⟨[83], 0, none⟩ true true] []
    (by
      intro e he
      rcases List.mem_cons.mp he with rfl | he
      · rfl
      · exact absurd he (List.not_mem_nil e))
    (fun e he => absurd he (List.not_mem_nil e)) 0 (by decide)
  exact h.1 (0, 1) (by decide)

theorem parse_failure_modes_witness :
    ParseStoredData [⟨[], 1⟩]
      (Encode [⟨[], 1⟩] ⟨[DexFileDeps.init 1], true⟩ ++ [0]) = none ∧
    ParseStoredData [⟨[], 1⟩]
      ((Encode [⟨[], 1⟩] ⟨[DexFileDeps.init 1], true⟩).take 3) = none ∧
    ParseStoredData [⟨[], 2⟩]
      (Encode [⟨[], 1⟩] ⟨[DexFileDeps.init 1], true⟩) = none := by
  have h := parse_failure_modes [⟨[], 1⟩] ⟨[DexFileDeps.init 1], true⟩ (by decide)
  refine ⟨h.1 [0] (by decide), ?_, ?_⟩
  · exact h.2.1 ((Encode [⟨[], 1⟩] ⟨[DexFileDeps.init 1], true⟩).take 3)
      ((Encode [⟨[], 1⟩] ⟨[DexFileDeps.init 1], true⟩).drop 3)
      (List.take_append_drop 3 _) (by decide)
  · exact h.2.2 [⟨[], 2⟩] 0 rfl (by decide) (fun k hk => absurd hk (by omega)) (by decide)

end VerifierDepsModel
